import Mathlib

/-!
# A verification development for the zap logging engine

Shallow embedding of

* `internal/multierror` (the error aggregator, known through its tests),
* `zapcore/tee.go` (the fan-out facility `Tee` and `multiFacility`),
* `logger.go` (the `jsonLogger` write path),
* `zaptest/logger.go` (the method `testingWriter.Write`),

followed by the theorems that settle the specification's claims about them.

Conventions of the embedding.

* A Go `error` interface value is `Option GoError`; `none` is Go's `nil`.
* A Go pointer that may be `nil` is an `Option`.
* A Go slice is a `List`; the `nil` slice is the empty list.
* Stateful collaborators (sinks, hooks, sink-backed facilities) are state
  transformers over an arbitrary state type `σ`.  Beside the state the world
  carries a ghost log of the calls the code under study made on its
  collaborators, so that "is called exactly once, in this order" is a statement
  about that log.
-/

set_option autoImplicit false

/-- The severity of a record.  Go declares it as a small signed integer type and
compares levels with the integer order. -/
abbrev Level := Int

/-! ## Errors and the error aggregator -/

/-- A non-nil Go error value.  `value id msg` is an error of any dynamic type other
than the aggregator's list: `id` is the identity of the value (two calls of
`errors.New "foo"` give two different values) and `msg` is what its `Error()`
returns.  `errSlice errs` is the aggregator's list type, which is itself an error. -/
inductive GoError where
  | value (id : Nat) (msg : String) : GoError
  | errSlice (errs : List GoError) : GoError

namespace multierror

/-- The list type `errSlice` of the aggregator. -/
abbrev errSlice := List GoError

end multierror

mutual
/-- The method `Error()` of an error value. -/
def GoError.Error : GoError → String
  | .value _ msg => msg
  | .errSlice errs => multierror.errSlice.Error errs
/-- Modelled from the spec: `errSlice.Error` is not among the sources, only its test
`TestErrorSliceString` is.  The message of a list of errors is every child's message,
in order, with `"; "` between two consecutive ones; the message of the nil or empty
list is the empty string. -/
def multierror.errSlice.Error : List GoError → String
  | [] => ""
  | [e] => e.Error
  | e :: es => e.Error ++ "; " ++ multierror.errSlice.Error es
end

namespace multierror

/-- The struct `Error` of the aggregator: it wraps the accumulated list `errs`. -/
structure Error where
  errs : errSlice

/-- The accumulated list of a possibly nil aggregator. -/
def accumulated : Option Error → errSlice
  | none => []
  | some e => e.errs

/-- Modelled from the spec: `(*Error).AsError` is not among the sources, only its
test `TestMultiErrorAsError` is.  No error for a nil aggregator or an empty list, the
single element itself for a list of one, the list as a composite error otherwise. -/
def AsError : Option Error → Option GoError
  | none => none
  | some e =>
    match e.errs with
    | [] => none
    | [err] => some err
    | errs => some (GoError.errSlice errs)

/-- Modelled from the spec: `(*Error).Append` is not among the sources, only its test
`TestErrorAppend` is.  Appending nil is a no-op that returns the receiver; appending a
non-nil error to a nil receiver allocates the aggregator; otherwise the error is added
at the end of the list. -/
def Append : Option Error → Option GoError → Option Error
  | e, none => e
  | none, some err => some { errs := [err] }
  | some e, some err => some { errs := e.errs ++ [err] }

end multierror

/-! ## `zapcore/tee.go` -/

namespace zapcore

/-- The method table of the facility implementations that are not defined in
`tee.go` (the sink-backed facilities).  `F` is the type of their values, `Entry`,
`Field` and `CheckedEntry` are the record types that `tee.go` only passes along, and
`σ` is the state of the outside world that a `Write` may read and change. -/
structure FacilityOps (F Entry Field CheckedEntry σ : Type) where
  With : F → List Field → F
  Enabled : F → Level → Bool
  Check : F → Entry → Option CheckedEntry → Option CheckedEntry
  Write : F → Entry → List Field → σ → Option GoError × σ

/-- A value of the interface `Facility`, tagged by its dynamic type: the no-op
facility, a sink-backed facility, or a `multiFacility` (a slice of facilities). -/
inductive Facility (F : Type) where
  | nop : Facility F
  | ext (f : F) : Facility F
  | multi (mf : List (Facility F)) : Facility F

/-- The type `multiFacility`, a slice of facilities. -/
abbrev multiFacility (F : Type) := List (Facility F)

/-- Modelled from the spec: `NopFacility` is not among the sources.  It is the no-op
facility: never enabled, and its `Write` succeeds without doing anything. -/
def NopFacility {F : Type} : Facility F := Facility.nop

/-- One call of `Write` received by a sink-backed facility, with its arguments. -/
structure WriteCall (F Entry Field : Type) where
  facility : F
  ent : Entry
  fields : List Field

/-- The world a `Write` runs in: the state of the sinks and the ghost log of the
`Write` calls that sink-backed facilities have received so far. -/
structure World (F Entry Field σ : Type) where
  st : σ
  calls : List (WriteCall F Entry Field)

/-- The function `Tee`. -/
def Tee {F : Type} (facs : List (Facility F)) : Facility F :=
  match facs with
  | [] => NopFacility
  | [f] => f
  | _ => Facility.multi facs

mutual
/-- Dynamic dispatch of `Enabled`.  The case of the no-op facility is modelled from the
spec: it is enabled for no level. -/
def Facility.Enabled {F Entry Field CheckedEntry σ : Type}
    (ops : FacilityOps F Entry Field CheckedEntry σ) : Facility F → Level → Bool
  | .nop, _ => false
  | .ext f, lvl => ops.Enabled f lvl
  | .multi mf, lvl => multiFacility.enabledLoop ops mf lvl
/-- The loop of `multiFacility.Enabled`: it returns true at the first child that is
enabled and false after the last one. -/
def multiFacility.enabledLoop {F Entry Field CheckedEntry σ : Type}
    (ops : FacilityOps F Entry Field CheckedEntry σ) : List (Facility F) → Level → Bool
  | [], _ => false
  | c :: rest, lvl =>
    if Facility.Enabled ops c lvl then true else multiFacility.enabledLoop ops rest lvl
end

/-- The method `multiFacility.Enabled`. -/
def multiFacility.Enabled {F Entry Field CheckedEntry σ : Type}
    (ops : FacilityOps F Entry Field CheckedEntry σ) (mf : multiFacility F) (lvl : Level) :
    Bool :=
  multiFacility.enabledLoop ops mf lvl

mutual
/-- Dynamic dispatch of `Write`.  A sink-backed facility runs its own `Write` on the
state; the call is recorded in the ghost log.  The case of the no-op facility is
modelled from the spec: its `Write` does nothing and returns nil.  The case of a
`multiFacility` is the body of `multiFacility.Write`. -/
def Facility.Write {F Entry Field CheckedEntry σ : Type}
    (ops : FacilityOps F Entry Field CheckedEntry σ) :
    Facility F → Entry → List Field → World F Entry Field σ →
      Option GoError × World F Entry Field σ
  | .nop, _, _, w => (none, w)
  | .ext f, ent, fields, w =>
    let r := ops.Write f ent fields w.st
    (r.1, { st := r.2, calls := w.calls ++ [{ facility := f, ent := ent, fields := fields }] })
  | .multi mf, ent, fields, w =>
    let r := multiFacility.writeLoop ops mf ent fields (some { errs := [] }) w
    (multierror.AsError r.1, r.2)
/-- The loop of `multiFacility.Write`: `errs = errs.Append(mf[i].Write(ent, fields))`
for every index in turn. -/
def multiFacility.writeLoop {F Entry Field CheckedEntry σ : Type}
    (ops : FacilityOps F Entry Field CheckedEntry σ) :
    List (Facility F) → Entry → List Field → Option multierror.Error →
      World F Entry Field σ → Option multierror.Error × World F Entry Field σ
  | [], _, _, errs, w => (errs, w)
  | c :: rest, ent, fields, errs, w =>
    let r := Facility.Write ops c ent fields w
    multiFacility.writeLoop ops rest ent fields (multierror.Append errs r.1) r.2
end

/-- The method `multiFacility.Write`: the variable `errs` starts as the zero value of
the aggregator, the loop appends every child's result, and `AsError` is returned. -/
def multiFacility.Write {F Entry Field CheckedEntry σ : Type}
    (ops : FacilityOps F Entry Field CheckedEntry σ) (mf : multiFacility F) (ent : Entry)
    (fields : List Field) (w : World F Entry Field σ) :
    Option GoError × World F Entry Field σ :=
  let r := multiFacility.writeLoop ops mf ent fields (some { errs := [] }) w
  (multierror.AsError r.1, r.2)

mutual
/-- Dynamic dispatch of `Check`.  The case of the no-op facility is modelled from the
spec: as a no-op it returns the checked entry it was given. -/
def Facility.Check {F Entry Field CheckedEntry σ : Type}
    (ops : FacilityOps F Entry Field CheckedEntry σ) :
    Facility F → Entry → Option CheckedEntry → Option CheckedEntry
  | .nop, _, ce => ce
  | .ext f, ent, ce => ops.Check f ent ce
  | .multi mf, ent, ce => multiFacility.checkLoop ops mf ent ce
/-- The loop of `multiFacility.Check`: `ce = mf[i].Check(ent, ce)` for every index. -/
def multiFacility.checkLoop {F Entry Field CheckedEntry σ : Type}
    (ops : FacilityOps F Entry Field CheckedEntry σ) :
    List (Facility F) → Entry → Option CheckedEntry → Option CheckedEntry
  | [], _, ce => ce
  | c :: rest, ent, ce => multiFacility.checkLoop ops rest ent (Facility.Check ops c ent ce)
end

/-- The method `multiFacility.Check`. -/
def multiFacility.Check {F Entry Field CheckedEntry σ : Type}
    (ops : FacilityOps F Entry Field CheckedEntry σ) (mf : multiFacility F) (ent : Entry)
    (ce : Option CheckedEntry) : Option CheckedEntry :=
  multiFacility.checkLoop ops mf ent ce

mutual
/-- Dynamic dispatch of `With`.  The case of the no-op facility is modelled from the
spec: as a no-op it returns itself. -/
def Facility.With {F Entry Field CheckedEntry σ : Type}
    (ops : FacilityOps F Entry Field CheckedEntry σ) : Facility F → List Field → Facility F
  | .nop, _ => Facility.nop
  | .ext f, fields => Facility.ext (ops.With f fields)
  | .multi mf, fields => Facility.multi (multiFacility.withLoop ops mf fields)
/-- The loop of `multiFacility.With`: `clone[i] = mf[i].With(fields)` for every index. -/
def multiFacility.withLoop {F Entry Field CheckedEntry σ : Type}
    (ops : FacilityOps F Entry Field CheckedEntry σ) :
    List (Facility F) → List Field → List (Facility F)
  | [], _ => []
  | c :: rest, fields => Facility.With ops c fields :: multiFacility.withLoop ops rest fields
end

/-- The method `multiFacility.With`. -/
def multiFacility.With {F Entry Field CheckedEntry σ : Type}
    (ops : FacilityOps F Entry Field CheckedEntry σ) (mf : multiFacility F)
    (fields : List Field) : Facility F :=
  Facility.multi (multiFacility.withLoop ops mf fields)

mutual
/-- The sink-backed facilities under a facility, left to right. -/
def Facility.sinks {F : Type} : Facility F → List F
  | .nop => []
  | .ext f => [f]
  | .multi mf => multiFacility.sinks mf
/-- The sink-backed facilities under a slice of facilities, left to right. -/
def multiFacility.sinks {F : Type} : List (Facility F) → List F
  | [] => []
  | c :: rest => Facility.sinks c ++ multiFacility.sinks rest
end

/-- The results that the children's `Write` return when they are run one after the
other from the world `w`, each on the world its predecessor left. -/
def writeResults {F Entry Field CheckedEntry σ : Type}
    (ops : FacilityOps F Entry Field CheckedEntry σ) :
    List (Facility F) → Entry → List Field → World F Entry Field σ → List (Option GoError)
  | [], _, _, _ => []
  | c :: rest, ent, fields, w =>
    (Facility.Write ops c ent fields w).1 ::
      writeResults ops rest ent fields (Facility.Write ops c ent fields w).2

/-- The two slices that the body of `multiFacility.With` works on: `mf`, the slice of
the receiver, and `clone`, the slice that `make` allocates.  A slot of `clone` that has
not been assigned holds the nil interface value, `none`. -/
structure WithState (F : Type) where
  mf : List (Facility F)
  clone : List (Option (Facility F))

/-- One iteration of the loop of `multiFacility.With`, at index `i`:
`clone[i] = mf[i].With(fields)`. -/
def multiFacility.withStep {F Entry Field CheckedEntry σ : Type}
    (ops : FacilityOps F Entry Field CheckedEntry σ) (fields : List Field) (i : Nat)
    (s : WithState F) : WithState F :=
  { mf := s.mf,
    clone := s.clone.set i ((s.mf[i]?).map (fun c => Facility.With ops c fields)) }

/-- The first `k` iterations of the loop of `multiFacility.With`, at the indices
`0`, ..., `k - 1` in turn. -/
def multiFacility.withIter {F Entry Field CheckedEntry σ : Type}
    (ops : FacilityOps F Entry Field CheckedEntry σ) (fields : List Field) :
    Nat → WithState F → WithState F
  | 0, s => s
  | k + 1, s => multiFacility.withStep ops fields k (multiFacility.withIter ops fields k s)

/-- The body of `multiFacility.With` on the two slices: `make` allocates `clone` with
`len(mf)` nil slots, and the loop runs over every index of `mf`. -/
def multiFacility.withRun {F Entry Field CheckedEntry σ : Type}
    (ops : FacilityOps F Entry Field CheckedEntry σ) (mf : multiFacility F)
    (fields : List Field) : WithState F :=
  multiFacility.withIter ops fields mf.length
    { mf := mf, clone := List.replicate mf.length none }

end zapcore

/-! ## `logger.go` -/

namespace zap

/-- Modelled from the spec: the level constants are not among the sources.  The spec
gives their strict order, Debug < Info < Warn < Error < DPanic < Panic < Fatal; the
numbers below are consecutive integers in that order. -/
def DebugLevel : Level := -1

/-- Modelled from the spec: see `DebugLevel`. -/
def InfoLevel : Level := 0

/-- Modelled from the spec: see `DebugLevel`. -/
def WarnLevel : Level := 1

/-- Modelled from the spec: see `DebugLevel`. -/
def ErrorLevel : Level := 2

/-- Modelled from the spec: see `DebugLevel`. -/
def DPanicLevel : Level := 3

/-- Modelled from the spec: see `DebugLevel`. -/
def PanicLevel : Level := 4

/-- Modelled from the spec: see `DebugLevel`. -/
def FatalLevel : Level := 5

/-- A point in time, in nanoseconds since the Unix epoch; `time.Unix(0, 0)` is `0`. -/
abbrev Time := Int

/-- Modelled from the spec: the type `encoder` is not among the sources.  An encoder
holds the fields added so far, in the order added. -/
structure encoder (Field : Type) where
  fields : List Field

/-- Modelled from the spec: `Clone` gives an independent copy of the encoder. -/
def encoder.Clone {Field : Type} (enc : encoder Field) : encoder Field :=
  { fields := enc.fields }

/-- Modelled from the spec: `AddFields` adds the fields after those already there. -/
def encoder.AddFields {Field : Type} (enc : encoder Field) (fields : List Field) :
    encoder Field :=
  { fields := enc.fields ++ fields }

/-- Modelled from the spec: the type `Entry` is not among the sources.  One record:
level, timestamp and message, with the encoder that `newEntry` is given.  The entry of
a call holds the encoder `temp` of that call, so `enc` stands for that one encoder. -/
structure Entry (Field : Type) where
  Level : Level
  Time : Time
  Message : String
  enc : encoder Field

/-- Modelled from the spec: `newEntry` is not among the sources.  The timestamp of a
new entry is the wall-clock time `now` at which it is built. -/
def newEntry {Field : Type} (now : Time) (lvl : Level) (msg : String) (enc : encoder Field) :
    Entry Field :=
  { Level := lvl, Time := now, Message := msg, enc := enc }

/-- What a call of a hook gives: the error it returns, the entry as it leaves it and
the state of the outside world as it leaves it. -/
structure HookResult (Field σ : Type) where
  err : Option GoError
  entry : Entry Field
  st : σ

/-- Modelled from the spec: the hook type is not among the sources.  A hook is a
function that takes the built entry and returns an error; it may read and change the
state of the outside world.  `log` hands every hook the one pooled entry of the call
and reads the message, the level and the time of that entry again after the loop, so a
hook may also rewrite the entry and the encoder it holds: the result of a hook has the
entry as the hook leaves it, which is the entry it was given when the hook only reads
it. -/
abbrev Hook (Field σ : Type) := Entry Field → σ → HookResult Field σ

/-- Modelled from the spec: the type of the primary output and the encoder's
`WriteEntry` are not among the sources.  `WriteEntry fields msg lvl t` is what
`enc.WriteEntry(sink, msg, lvl, t)` does on this sink when `enc` holds `fields`: it
writes one record to the sink and returns the error of that write.  `Sync` is the
sink's flush; the write path drops its result. -/
structure Output (Field σ : Type) where
  WriteEntry : List Field → String → Level → Time → σ → Option GoError × σ
  Sync : σ → σ

/-- Modelled from the spec: the type of the error output is not among the sources.
`Write` is the sink's write of some text and `Sync` its flush; `internalError` drops
the results of both. -/
structure ErrorOutput (σ : Type) where
  Write : String → σ → σ
  Sync : σ → σ

/-- Modelled from the spec: the struct `Meta` is not among the sources.  It is the
state of a logger: the encoder with the accumulated context, the hooks, the primary
and the error output, the development flag, and `Level`, the minimum level that the
method `Level()` returns when the call is made. -/
structure Meta (Field σ : Type) where
  Development : Bool
  Encoder : encoder Field
  Hooks : List (Hook Field σ)
  Output : Output Field σ
  ErrorOutput : ErrorOutput σ
  Level : Level

/-- The struct `jsonLogger`: it embeds `Meta` and adds the flag `alwaysEpoch`. -/
structure jsonLogger (Field σ : Type) extends Meta Field σ where
  alwaysEpoch : Bool

/-- One call that the write path makes on a collaborator, with what it returned:
* `hook i entry result`: the hook at index `i` is called with `entry`;
* `writeEntry fields msg lvl t result`: `WriteEntry` is called on the primary output
  by an encoder holding `fields`;
* `outputSync`: `Sync` is called on the primary output;
* `errWrite s`: the text `s` is written to the error output;
* `errSync`: `Sync` is called on the error output. -/
inductive Event (Field : Type) where
  | hook (i : Nat) (entry : Entry Field) (result : Option GoError) : Event Field
  | writeEntry (fields : List Field) (msg : String) (lvl : Level) (t : Time)
      (result : Option GoError) : Event Field
  | outputSync : Event Field
  | errWrite (s : String) : Event Field
  | errSync : Event Field

/-- The world a logger runs in: the state of the sinks and hooks, and the ghost log
of the calls made on them so far. -/
structure World (Field σ : Type) where
  st : σ
  trace : List (Event Field)

/-- How a call ends: it returns, it panics with a value, or it exits the process. -/
inductive Outcome where
  | returned : Outcome
  | panicked (v : String) : Outcome
  | exited (code : Int) : Outcome

/-- The method `internalError`: `fmt.Fprintln` writes the message and a newline to the
error output, then the error output is synced. -/
def jsonLogger.internalError {Field σ : Type} (jl : jsonLogger Field σ) (msg : String)
    (w : World Field σ) : World Field σ :=
  let w1 : World Field σ :=
    { st := jl.ErrorOutput.Write (msg ++ "\n") w.st,
      trace := w.trace ++ [Event.errWrite (msg ++ "\n")] }
  { st := jl.ErrorOutput.Sync w1.st, trace := w1.trace ++ [Event.errSync] }

/-- The loop over `jl.Hooks` in `log`: every hook is called with the entry of the
call, as the hooks before it left it, and an error it returns is passed to
`internalError`.  `i` is the index of the next hook.  The result is the entry as the
last hook left it, with the world. -/
def jsonLogger.hooksLoop {Field σ : Type} (jl : jsonLogger Field σ) :
    List (Hook Field σ) → Nat → Entry Field → World Field σ → Entry Field × World Field σ
  | [], _, entry, w => (entry, w)
  | hook :: rest, i, entry, w =>
    let r := hook entry w.st
    let w1 : World Field σ := { st := r.st, trace := w.trace ++ [Event.hook i entry r.err] }
    let w2 : World Field σ :=
      match r.err with
      | some err => jl.internalError err.Error w1
      | none => w1
    jsonLogger.hooksLoop jl rest (i + 1) r.entry w2

/-- The entry that `log` builds: the encoder is cloned, the fields of the call are
added, and the timestamp is replaced by the epoch when `alwaysEpoch` is set. -/
def jsonLogger.buildEntry {Field σ : Type} (jl : jsonLogger Field σ) (now : Time)
    (lvl : Level) (msg : String) (fields : List Field) : Entry Field :=
  let temp := (jl.Encoder.Clone).AddFields fields
  let entry := newEntry now lvl msg temp
  if jl.alwaysEpoch then { entry with Time := 0 } else entry

/-- The method `log`, the write path.  `now` is the wall-clock time of the call.
After the hook loop `entry` is the pooled entry as the hooks left it and `temp`, the
encoder that the entry holds, is read as the hooks left it: `WriteEntry` is called on
`temp` with the message, the level and the time read from the entry at that point.
Returning `temp` and `entry` to their pools has no effect on the world. -/
def jsonLogger.log {Field σ : Type} (jl : jsonLogger Field σ) (now : Time) (lvl : Level)
    (msg : String) (fields : List Field) (w : World Field σ) : World Field σ :=
  if ¬ (lvl ≥ jl.Level) then w
  else
    let hw := jl.hooksLoop jl.Hooks 0 (jl.buildEntry now lvl msg fields) w
    let entry := hw.1
    let temp := entry.enc
    let w1 := hw.2
    let r := jl.Output.WriteEntry temp.fields entry.Message entry.Level entry.Time w1.st
    let w2 : World Field σ :=
      { st := r.2,
        trace := w1.trace ++
          [Event.writeEntry temp.fields entry.Message entry.Level entry.Time r.1] }
    let w3 : World Field σ :=
      match r.1 with
      | some err => jl.internalError err.Error w2
      | none => w2
    if lvl > ErrorLevel then
      { st := jl.Output.Sync w3.st, trace := w3.trace ++ [Event.outputSync] }
    else w3

/-- The method `Debug`. -/
def jsonLogger.Debug {Field σ : Type} (jl : jsonLogger Field σ) (now : Time)
    (msg : String) (fields : List Field) (w : World Field σ) : World Field σ :=
  jl.log now DebugLevel msg fields w

/-- The method `Info`. -/
def jsonLogger.Info {Field σ : Type} (jl : jsonLogger Field σ) (now : Time)
    (msg : String) (fields : List Field) (w : World Field σ) : World Field σ :=
  jl.log now InfoLevel msg fields w

/-- The method `Warn`. -/
def jsonLogger.Warn {Field σ : Type} (jl : jsonLogger Field σ) (now : Time)
    (msg : String) (fields : List Field) (w : World Field σ) : World Field σ :=
  jl.log now WarnLevel msg fields w

/-- The method `Error`. -/
def jsonLogger.Error {Field σ : Type} (jl : jsonLogger Field σ) (now : Time)
    (msg : String) (fields : List Field) (w : World Field σ) : World Field σ :=
  jl.log now ErrorLevel msg fields w

/-- The method `Panic`: the write path at Panic level, then `panic(msg)`. -/
def jsonLogger.Panic {Field σ : Type} (jl : jsonLogger Field σ) (now : Time)
    (msg : String) (fields : List Field) (w : World Field σ) : World Field σ × Outcome :=
  (jl.log now PanicLevel msg fields w, Outcome.panicked msg)

/-- The method `Fatal`: the write path at Fatal level, then `_exit(1)`. -/
def jsonLogger.Fatal {Field σ : Type} (jl : jsonLogger Field σ) (now : Time)
    (msg : String) (fields : List Field) (w : World Field σ) : World Field σ × Outcome :=
  (jl.log now FatalLevel msg fields w, Outcome.exited 1)

/-- The method `DFatal`. -/
def jsonLogger.DFatal {Field σ : Type} (jl : jsonLogger Field σ) (now : Time)
    (msg : String) (fields : List Field) (w : World Field σ) : World Field σ × Outcome :=
  if jl.Development then jl.Fatal now msg fields w
  else (jl.Error now msg fields w, Outcome.returned)

/-- The method `Log`: a switch on the level. -/
def jsonLogger.Log {Field σ : Type} (jl : jsonLogger Field σ) (now : Time) (lvl : Level)
    (msg : String) (fields : List Field) (w : World Field σ) : World Field σ × Outcome :=
  if lvl = PanicLevel then jl.Panic now msg fields w
  else if lvl = FatalLevel then jl.Fatal now msg fields w
  else (jl.log now lvl msg fields w, Outcome.returned)

/-- The method `StubTime`. -/
def jsonLogger.StubTime {Field σ : Type} (jl : jsonLogger Field σ) : jsonLogger Field σ :=
  { jl with alwaysEpoch := true }

/-- The method `With`: the clone has a copy of the encoder with the fields added. -/
def jsonLogger.With {Field σ : Type} (jl : jsonLogger Field σ) (fields : List Field) :
    jsonLogger Field σ :=
  { jl with Encoder := (jl.Encoder.Clone).AddFields fields }

/-- Modelled from the spec: the type `CheckedMessage` is not among the sources.  It is
the staged handle, bound to one logger, one level and one message. -/
structure CheckedMessage (Field σ : Type) where
  logger : jsonLogger Field σ
  lvl : Level
  msg : String

/-- Modelled from the spec: `NewCheckedMessage` is not among the sources.  It builds
the handle from the logger, the level and the message. -/
def NewCheckedMessage {Field σ : Type} (logger : jsonLogger Field σ) (lvl : Level)
    (msg : String) : CheckedMessage Field σ :=
  { logger := logger, lvl := lvl, msg := msg }

/-- The method `Check`. -/
def jsonLogger.Check {Field σ : Type} (jl : jsonLogger Field σ) (lvl : Level)
    (msg : String) : Option (CheckedMessage Field σ) :=
  if ¬ (lvl ≥ jl.Level) then none else some (NewCheckedMessage jl lvl msg)


/-- The events by which a result `r` is reported to the error output: none when `r`
is nil, else the write of the error's message and a newline, then the sync. -/
def errEvents {Field : Type} : Option GoError → List (Event Field)
  | none => []
  | some e => [Event.errWrite (e.Error ++ "\n"), Event.errSync]

/-- The world after the result `r` of a hook or of the write has been reported: as it
was when `r` is nil; else the message of the error and a newline have been written to
the error output and the error output has been synced. -/
def reported {Field σ : Type} (jl : jsonLogger Field σ) (r : Option GoError)
    (w : World Field σ) : World Field σ :=
  match r with
  | none => w
  | some e =>
    { st := jl.ErrorOutput.Sync (jl.ErrorOutput.Write (e.Error ++ "\n") w.st),
      trace := w.trace ++ errEvents (some e) }

/-- What the call of the hook `ih.2`, registered at index `ih.1`, does to the entry
and the world `acc`: the hook runs on the entry and the state, the call is logged with
the entry it was given and the error it returned, and that error is reported. -/
def hookStep {Field σ : Type} (jl : jsonLogger Field σ)
    (acc : Entry Field × World Field σ) (ih : Nat × Hook Field σ) :
    Entry Field × World Field σ :=
  ((ih.2 acc.1 acc.2.st).entry,
    reported jl (ih.2 acc.1 acc.2.st).err
      { st := (ih.2 acc.1 acc.2.st).st,
        trace := acc.2.trace ++ [Event.hook ih.1 acc.1 (ih.2 acc.1 acc.2.st).err] })

/-- The entry and the world after every registered hook has been called once, in
registration order, each on what the hooks before it left. -/
def afterHooks {Field σ : Type} (jl : jsonLogger Field σ) (entry : Entry Field)
    (w : World Field σ) : Entry Field × World Field σ :=
  (jl.Hooks.enum).foldl (hookStep jl) (entry, w)

/-- One call of a hook: the index at which the hook is registered, the entry it was
given and the error it returned. -/
structure HookCall (Field : Type) where
  index : Nat
  entry : Entry Field
  err : Option GoError

/-- The calls of the hooks `hooks`, registered from index `i` on, when they are run
one after the other from `entry` and `w`, each on what its predecessor left. -/
def hookCalls {Field σ : Type} (jl : jsonLogger Field σ) :
    List (Hook Field σ) → Nat → Entry Field → World Field σ → List (HookCall Field)
  | [], _, _, _ => []
  | hook :: rest, i, entry, w =>
    { index := i, entry := entry, err := (hook entry w.st).err } ::
      hookCalls jl rest (i + 1) (hookStep jl (entry, w) (i, hook)).1
        (hookStep jl (entry, w) (i, hook)).2

/-- The events of the hook loop for the calls `cs`: every call is followed by the
report of its error, if it returned one. -/
def hookEvents {Field : Type} : List (HookCall Field) → List (Event Field)
  | [] => []
  | c :: cs => Event.hook c.index c.entry c.err :: (errEvents c.err ++ hookEvents cs)

/-- The entry of a call as the hooks leave it: what `WriteEntry` is called with. -/
def writtenEntry {Field σ : Type} (jl : jsonLogger Field σ) (now : Time) (lvl : Level)
    (msg : String) (fields : List Field) (w : World Field σ) : Entry Field :=
  (afterHooks jl (jl.buildEntry now lvl msg fields) w).1

/-- The error that the one `WriteEntry` of a call returns. -/
def writeResult {Field σ : Type} (jl : jsonLogger Field σ) (now : Time) (lvl : Level)
    (msg : String) (fields : List Field) (w : World Field σ) : Option GoError :=
  (jl.Output.WriteEntry (writtenEntry jl now lvl msg fields w).enc.fields
    (writtenEntry jl now lvl msg fields w).Message (writtenEntry jl now lvl msg fields w).Level
    (writtenEntry jl now lvl msg fields w).Time
    (afterHooks jl (jl.buildEntry now lvl msg fields) w).2.st).1

/-- The world after the hooks and the write of a call, before any sync of the primary
output: every hook has been called, then `WriteEntry` has been called once on the
primary output with the entry as the hooks left it, and its error has been reported. -/
def afterWrite {Field σ : Type} (jl : jsonLogger Field σ) (now : Time) (lvl : Level)
    (msg : String) (fields : List Field) (w : World Field σ) : World Field σ :=
  reported jl (writeResult jl now lvl msg fields w)
    { st := (jl.Output.WriteEntry (writtenEntry jl now lvl msg fields w).enc.fields
        (writtenEntry jl now lvl msg fields w).Message
        (writtenEntry jl now lvl msg fields w).Level
        (writtenEntry jl now lvl msg fields w).Time
        (afterHooks jl (jl.buildEntry now lvl msg fields) w).2.st).2,
      trace := (afterHooks jl (jl.buildEntry now lvl msg fields) w).2.trace ++
        [Event.writeEntry (writtenEntry jl now lvl msg fields w).enc.fields
          (writtenEntry jl now lvl msg fields w).Message
          (writtenEntry jl now lvl msg fields w).Level
          (writtenEntry jl now lvl msg fields w).Time
          (writeResult jl now lvl msg fields w)] }

/-- The world after the primary output has been synced. -/
def synced {Field σ : Type} (jl : jsonLogger Field σ) (w : World Field σ) :
    World Field σ :=
  { st := jl.Output.Sync w.st, trace := w.trace ++ [Event.outputSync] }

/-- The index and the entry of a hook call; `none` for any other event. -/
def Event.hookCall? {Field : Type} : Event Field → Option (Nat × Entry Field)
  | .hook i entry _ => some (i, entry)
  | _ => none

/-- Whether the event is a `WriteEntry` on the primary output. -/
def Event.isWrite {Field : Type} : Event Field → Bool
  | .writeEntry _ _ _ _ _ => true
  | _ => false

/-- Whether the event is a `Sync` of the primary output. -/
def Event.isOutputSync {Field : Type} : Event Field → Bool
  | .outputSync => true
  | _ => false

/-- The time handed to `WriteEntry` on the primary output; `none` for any other
event. -/
def Event.writeTime? {Field : Type} : Event Field → Option Time
  | .writeEntry _ _ _ t _ => some t
  | _ => none

/-- The behaviour of `DFatal` in the words of the spec: in development mode it does
exactly what `Fatal` does; otherwise it does exactly what `Error` does, and the call
returns. -/
def DFatalSpec {Field σ : Type} (jl : jsonLogger Field σ) (now : Time) (msg : String)
    (fields : List Field) (w : World Field σ) : World Field σ × Outcome :=
  match jl.Development with
  | true => jl.Fatal now msg fields w
  | false => (jl.Error now msg fields w, Outcome.returned)

end zap

/-! ## `zaptest/logger.go` -/

namespace zaptest

/-- A Go byte slice or string, as the list of its bytes. -/
abbrev Bytes := List Nat

/-- A run-time failure of Go: an index or a slice bound out of range. -/
inductive RuntimeError where
  | indexOutOfRange (index : Int) (length : Nat) : RuntimeError
  | sliceBoundsOutOfRange (bound : Int) (length : Nat) : RuntimeError

/-- The index expression `s[i]`: it fails at run time unless `0 ≤ i < len(s)`. -/
def index (s : Bytes) (i : Int) : Except RuntimeError Nat :=
  if 0 ≤ i ∧ i < (s.length : Int) then Except.ok (s.getD i.toNat 0)
  else Except.error (RuntimeError.indexOutOfRange i s.length)

/-- The slice expression `s[:j]`: it fails at run time unless `0 ≤ j ≤ len(s)`. -/
def sliceTo (s : Bytes) (j : Int) : Except RuntimeError Bytes :=
  if 0 ≤ j ∧ j ≤ (s.length : Int) then Except.ok (s.take j.toNat)
  else Except.error (RuntimeError.sliceBoundsOutOfRange j s.length)

/-- The method `testingWriter.Write`.  `t` is what the test logger has been given so
far, one text for each call of `Logf`; `Logf("%s", s)` adds `s` to it.  The result is
the run-time failure, or the pair that `Write` returns with the new log.  The byte of
the newline is 10. -/
def testingWriter.Write (p : Bytes) (t : List Bytes) :
    Except RuntimeError ((Nat × Option GoError) × List Bytes) :=
  let s := p
  match index s ((s.length : Int) - 1) with
  | Except.error e => Except.error e
  | Except.ok last =>
    match (if last = 10 then sliceTo s ((s.length : Int) - 1) else Except.ok s) with
    | Except.error e => Except.error e
    | Except.ok s1 => Except.ok ((p.length, none), t ++ [s1])

end zaptest

/-! ## Concrete instances -/

namespace zapcore

/-- Sinks numbered by naturals over a state that counts the writes performed: sinks 2
and 4 fail at every write, the others succeed; sink `f` is enabled from level `f`. -/
def demoOps : FacilityOps Nat String String Unit Nat where
  With := fun f _ => f
  Enabled := fun f lvl => decide ((f : Int) ≤ lvl)
  Check := fun _ _ ce => ce
  Write := fun f _ _ n =>
    (if f = 2 then some (GoError.value 2 "sink 2 failed")
      else if f = 4 then some (GoError.value 4 "sink 4 failed") else none, n + 1)

/-- Three facilities of which the second fails. -/
def demoFacs : List (Facility Nat) := [Facility.ext 1, Facility.ext 2, Facility.ext 3]

/-- Three facilities of which the first and the last fail. -/
def demoFacs2 : List (Facility Nat) := [Facility.ext 2, Facility.ext 3, Facility.ext 4]

/-- A world in which nothing has been written yet. -/
def demoWorld : World Nat String String Nat := { st := 0, calls := [] }

end zapcore

namespace zap

/-- A logger at Info level, over a state that counts the calls made on its
collaborators: of its two hooks the second fails, and every write to its primary
output fails. -/
def demoLogger : jsonLogger String Nat where
  Development := false
  Encoder := { fields := ["svc"] }
  Hooks := [fun e n => { err := none, entry := e, st := n + 1 },
    fun e n => { err := some (GoError.value 1 "hook failed"), entry := e, st := n + 1 }]
  Output := { WriteEntry := fun _ _ _ _ n => (some (GoError.value 2 "write failed"), n + 1),
              Sync := fun n => n + 1 }
  ErrorOutput := { Write := fun _ n => n + 1, Sync := fun n => n + 1 }
  Level := InfoLevel
  alwaysEpoch := false

/-- A world in which nothing has happened yet. -/
def demoLogWorld : World String Nat := { st := 0, trace := [] }

/-- The logger `demoLogger` with a minimum level above Fatal: every level named by a
constant is disabled. -/
def silentLogger : jsonLogger String Nat := { demoLogger with Level := 6 }

/-- The logger `demoLogger` in development mode. -/
def devLogger : jsonLogger String Nat := { demoLogger with Development := true }

/-- A logger at Info level with two hooks that return no error: the first sets the
time of the entry to 9, the second only reads the entry. -/
def retimeLogger : jsonLogger String Nat where
  Development := false
  Encoder := { fields := [] }
  Hooks := [fun e n => { err := none, entry := { e with Time := 9 }, st := n + 1 },
    fun e n => { err := none, entry := e, st := n + 1 }]
  Output := { WriteEntry := fun _ _ _ _ n => (none, n + 1), Sync := fun n => n + 1 }
  ErrorOutput := { Write := fun _ n => n + 1, Sync := fun n => n + 1 }
  Level := InfoLevel
  alwaysEpoch := false

end zap

/-! ## The error aggregator: lemmas -/

/-- Text already accumulated in front of the join stays in front of it. -/
theorem multierror.intercalate_go_append (s x : String) :
    ∀ (l : List String) (y : String),
      String.intercalate.go (x ++ y) s l = x ++ String.intercalate.go y s l
  | [], y => by simp [String.intercalate.go]
  | c :: l, y => by
    simp only [String.intercalate.go]
    rw [String.append_assoc x, String.append_assoc x]
    exact multierror.intercalate_go_append s x l (y ++ s ++ c)

/-- Joining a list of two or more strings: the first, the separator, the join of the rest. -/
theorem multierror.intercalate_cons_cons (s a b : String) (l : List String) :
    s.intercalate (a :: b :: l) = a ++ s ++ s.intercalate (b :: l) := by
  simp only [String.intercalate, String.intercalate.go]
  rw [String.append_assoc a s b, multierror.intercalate_go_append, multierror.intercalate_go_append,
    String.append_assoc]

/-- The message of a list of errors is the join of the messages with the separator `"; "`. -/
theorem multierror.errSlice_Error_eq_intercalate :
    ∀ errs : List GoError,
      multierror.errSlice.Error errs = "; ".intercalate (errs.map GoError.Error)
  | [] => by simp [multierror.errSlice.Error, String.intercalate]
  | [e] => by simp [multierror.errSlice.Error, String.intercalate, String.intercalate.go]
  | e :: e2 :: es => by
    rw [multierror.errSlice.Error, multierror.errSlice_Error_eq_intercalate (e2 :: es)]
    simp only [List.map_cons]
    rw [multierror.intercalate_cons_cons]
    · intro h; cases h

/-- The list after one `Append`. -/
theorem multierror.accumulated_Append (agg : Option multierror.Error) (e : Option GoError) :
    multierror.accumulated (multierror.Append agg e) = multierror.accumulated agg ++ e.toList := by
  cases agg <;> cases e <;> simp [multierror.Append, multierror.accumulated]

/-- The list after a sequence of `Append`s. -/
theorem multierror.accumulated_foldl_Append (es : List (Option GoError)) :
    ∀ agg : Option multierror.Error,
      multierror.accumulated (es.foldl multierror.Append agg) =
        multierror.accumulated agg ++ es.reduceOption := by
  induction es with
  | nil => intro agg; simp
  | cons e es ih =>
    intro agg
    rw [List.foldl_cons, ih, multierror.accumulated_Append]
    cases e <;> simp [List.reduceOption_cons_of_some, List.reduceOption_cons_of_none]

/-- The result of `AsError` depends on the accumulated list alone. -/
theorem multierror.AsError_eq_of_accumulated (agg : Option multierror.Error) :
    multierror.AsError agg = multierror.AsError (some { errs := multierror.accumulated agg }) := by
  cases agg <;> simp [multierror.AsError, multierror.accumulated]

/-- A list of results has no error exactly when every result is nil. -/
theorem multierror.reduceOption_eq_nil_iff_forall {α : Type} :
    ∀ l : List (Option α), l.reduceOption = [] ↔ ∀ r ∈ l, r = none
  | [] => by simp
  | none :: l => by
    simp [List.reduceOption_cons_of_none, multierror.reduceOption_eq_nil_iff_forall l]
  | some a :: l => by
    simp [List.reduceOption_cons_of_some]

/-! ## `Tee` and `multiFacility` -/

namespace zapcore

/-- The loop of `multiFacility.Write` returns the aggregator with the children's results
appended, and the world that the children's `Write` leave when run in order. -/
theorem writeLoop_eq {F Entry Field CheckedEntry σ : Type}
    (ops : FacilityOps F Entry Field CheckedEntry σ) (ent : Entry) (fields : List Field) :
    ∀ (mf : List (Facility F)) (errs : Option multierror.Error) (w : World F Entry Field σ),
      multiFacility.writeLoop ops mf ent fields errs w =
        ((writeResults ops mf ent fields w).foldl multierror.Append errs,
          mf.foldl (fun v c => (Facility.Write ops c ent fields v).2) w)
  | [], errs, w => by simp [multiFacility.writeLoop, writeResults]
  | c :: rest, errs, w => by
    rw [multiFacility.writeLoop]
    simp only [writeResults, List.foldl_cons]
    exact writeLoop_eq ops ent fields rest _ _

mutual
/-- The `Write` calls that a facility adds to the log: one for each sink under it, in
order, with the entry and the fields it was given. -/
theorem Facility.Write_calls {F Entry Field CheckedEntry σ : Type}
    (ops : FacilityOps F Entry Field CheckedEntry σ) (ent : Entry) (fields : List Field) :
    ∀ (c : Facility F) (w : World F Entry Field σ),
      (Facility.Write ops c ent fields w).2.calls =
        w.calls ++ (Facility.sinks c).map
          (fun f => ({ facility := f, ent := ent, fields := fields } : WriteCall F Entry Field))
  | .nop, w => by simp [Facility.Write, Facility.sinks]
  | .ext f, w => by simp [Facility.Write, Facility.sinks]
  | .multi mf, w => by
    simp only [Facility.Write, Facility.sinks]
    exact writeLoop_calls ops ent fields mf _ w
/-- The `Write` calls that the loop of `multiFacility.Write` adds to the log. -/
theorem writeLoop_calls {F Entry Field CheckedEntry σ : Type}
    (ops : FacilityOps F Entry Field CheckedEntry σ) (ent : Entry) (fields : List Field) :
    ∀ (mf : List (Facility F)) (errs : Option multierror.Error) (w : World F Entry Field σ),
      (multiFacility.writeLoop ops mf ent fields errs w).2.calls =
        w.calls ++ (multiFacility.sinks mf).map
          (fun f => ({ facility := f, ent := ent, fields := fields } : WriteCall F Entry Field))
  | [], errs, w => by simp [multiFacility.writeLoop, multiFacility.sinks]
  | c :: rest, errs, w => by
    rw [multiFacility.writeLoop]
    simp only [multiFacility.sinks, List.map_append]
    rw [writeLoop_calls ops ent fields rest _ _, Facility.Write_calls ops ent fields c w,
      List.append_assoc]
end

/-- The sinks under a slice are the sinks under its elements, in order. -/
theorem multiFacility.sinks_eq_bind {F : Type} :
    ∀ mf : List (Facility F), multiFacility.sinks mf = mf.flatMap Facility.sinks
  | [] => by simp [multiFacility.sinks]
  | c :: rest => by
    simp [multiFacility.sinks, multiFacility.sinks_eq_bind rest]

/-- The loop of `multiFacility.Enabled` computes the disjunction over the children. -/
theorem multiFacility.enabledLoop_eq_any {F Entry Field CheckedEntry σ : Type}
    (ops : FacilityOps F Entry Field CheckedEntry σ) (lvl : Level) :
    ∀ mf : List (Facility F),
      multiFacility.enabledLoop ops mf lvl = mf.any (fun c => Facility.Enabled ops c lvl)
  | [] => by simp [multiFacility.enabledLoop]
  | c :: rest => by
    rw [multiFacility.enabledLoop, multiFacility.enabledLoop_eq_any ops lvl rest]
    cases h : Facility.Enabled ops c lvl <;> simp [h]

/-- No facility is the composite of the slice that holds only itself. -/
theorem Facility.ne_multi_singleton {F : Type} (f : Facility F) : f ≠ Facility.multi [f] := by
  intro h
  have := congrArg sizeOf h
  simp at this
  omega

/-- The error that `Tee(facs...).Write` returns is `AsError` of the children's failures. -/
theorem Tee_Write_result {F Entry Field CheckedEntry σ : Type}
    (ops : FacilityOps F Entry Field CheckedEntry σ) (ent : Entry) (fields : List Field)
    (w : World F Entry Field σ) :
    ∀ facs : List (Facility F),
      (Facility.Write ops (Tee facs) ent fields w).1 =
        multierror.AsError (some { errs := (writeResults ops facs ent fields w).reduceOption })
  | [] => by simp [Tee, NopFacility, Facility.Write, writeResults, multierror.AsError]
  | [f] => by
    simp only [Tee, writeResults]
    cases (Facility.Write ops f ent fields w).1 <;>
      simp [multierror.AsError, List.reduceOption_cons_of_some, List.reduceOption_cons_of_none]
  | f :: g :: rest => by
    simp only [Tee, Facility.Write]
    rw [writeLoop_eq, multierror.AsError_eq_of_accumulated, multierror.accumulated_foldl_Append]
    simp [multierror.accumulated]

/-- C1: for the composite that `Tee` builds from two or more facilities, `Write` runs
every child's `Write` once, in child order, with the entry and the field list it was
given, whatever the children return: the world it leaves is the one obtained by
running the children's `Write` one after the other, and the sink-backed facilities
under it have each received one more call, in order, with those arguments. -/
theorem multiFacility_Write_calls_every_child {F Entry Field CheckedEntry σ : Type}
    (ops : FacilityOps F Entry Field CheckedEntry σ) (facs : List (Facility F))
    (h : 2 ≤ facs.length) (ent : Entry) (fields : List Field) (w : World F Entry Field σ) :
    Tee facs = Facility.multi facs ∧
    Facility.Write ops (Tee facs) ent fields w = multiFacility.Write ops facs ent fields w ∧
    (multiFacility.Write ops facs ent fields w).2 =
      facs.foldl (fun v c => (Facility.Write ops c ent fields v).2) w ∧
    (multiFacility.Write ops facs ent fields w).2.calls =
      w.calls ++ (facs.flatMap Facility.sinks).map
        (fun f => ({ facility := f, ent := ent, fields := fields } : WriteCall F Entry Field)) := by
  have hT : Tee facs = Facility.multi facs := by
    match facs, h with
    | _ :: _ :: _, _ => rfl
  refine ⟨hT, ?_, ?_, ?_⟩
  · rw [hT]; simp only [Facility.Write, multiFacility.Write]
  · simp only [multiFacility.Write]; rw [writeLoop_eq]
  · simp only [multiFacility.Write]
    rw [writeLoop_calls, multiFacility.sinks_eq_bind]

/-- Three sinks of which the second fails: all three receive the entry, in order. -/
theorem multiFacility_Write_calls_every_child_witness :
    2 ≤ demoFacs.length ∧
    (multiFacility.Write demoOps demoFacs "entry" ["k"] demoWorld).2.calls =
      [{ facility := 1, ent := "entry", fields := ["k"] },
       { facility := 2, ent := "entry", fields := ["k"] },
       { facility := 3, ent := "entry", fields := ["k"] }] ∧
    (Tee demoFacs = Facility.multi demoFacs ∧
      Facility.Write demoOps (Tee demoFacs) "entry" ["k"] demoWorld =
        multiFacility.Write demoOps demoFacs "entry" ["k"] demoWorld ∧
      (multiFacility.Write demoOps demoFacs "entry" ["k"] demoWorld).2 =
        demoFacs.foldl (fun v c => (Facility.Write demoOps c "entry" ["k"] v).2) demoWorld ∧
      (multiFacility.Write demoOps demoFacs "entry" ["k"] demoWorld).2.calls =
        demoWorld.calls ++ (demoFacs.flatMap Facility.sinks).map
          (fun f => ({ facility := f, ent := "entry", fields := ["k"] } :
            WriteCall Nat String String))) :=
  ⟨by decide, rfl,
    multiFacility_Write_calls_every_child demoOps demoFacs (by decide) "entry" ["k"] demoWorld⟩

/-- C2: `Tee(facs...).Write` returns nil exactly when every child's `Write` returns
nil; when one child fails it returns that child's error itself; when several fail it
returns an error whose message is the failing children's messages, in child order,
joined by `"; "`.  The children's results are those of `writeResults`. -/
theorem Tee_Write_error {F Entry Field CheckedEntry σ : Type}
    (ops : FacilityOps F Entry Field CheckedEntry σ) (facs : List (Facility F))
    (ent : Entry) (fields : List Field) (w : World F Entry Field σ) :
    ((Facility.Write ops (Tee facs) ent fields w).1 = none ↔
      ∀ r ∈ writeResults ops facs ent fields w, r = none) ∧
    (∀ e : GoError, (writeResults ops facs ent fields w).reduceOption = [e] →
      (Facility.Write ops (Tee facs) ent fields w).1 = some e) ∧
    (2 ≤ (writeResults ops facs ent fields w).reduceOption.length →
      ∃ err : GoError, (Facility.Write ops (Tee facs) ent fields w).1 = some err ∧
        err.Error = "; ".intercalate
          ((writeResults ops facs ent fields w).reduceOption.map GoError.Error)) := by
  rw [Tee_Write_result, ← multierror.reduceOption_eq_nil_iff_forall]
  generalize (writeResults ops facs ent fields w).reduceOption = l
  refine ⟨?_, ?_, ?_⟩
  · match l with
    | [] => simp [multierror.AsError]
    | [_] => simp [multierror.AsError]
    | _ :: _ :: _ => simp [multierror.AsError]
  · intro e he
    subst he
    simp [multierror.AsError]
  · intro hl
    match l, hl with
    | a :: b :: l, _ =>
      refine ⟨GoError.errSlice (a :: b :: l), by simp [multierror.AsError], ?_⟩
      rw [GoError.Error, multierror.errSlice_Error_eq_intercalate]

/-- One failing sink of three gives its own error; two failing sinks give the joined
message. -/
theorem Tee_Write_error_witness :
    (writeResults demoOps demoFacs "entry" ["k"] demoWorld).reduceOption =
      [GoError.value 2 "sink 2 failed"] ∧
    (Facility.Write demoOps (Tee demoFacs) "entry" ["k"] demoWorld).1 =
      some (GoError.value 2 "sink 2 failed") ∧
    2 ≤ (writeResults demoOps demoFacs2 "entry" ["k"] demoWorld).reduceOption.length ∧
    (∃ err : GoError,
      (Facility.Write demoOps (Tee demoFacs2) "entry" ["k"] demoWorld).1 = some err ∧
      err.Error = "; ".intercalate
        ((writeResults demoOps demoFacs2 "entry" ["k"] demoWorld).reduceOption.map
          GoError.Error)) ∧
    "; ".intercalate
        ((writeResults demoOps demoFacs2 "entry" ["k"] demoWorld).reduceOption.map
          GoError.Error) = "sink 2 failed; sink 4 failed" :=
  ⟨rfl, (Tee_Write_error demoOps demoFacs "entry" ["k"] demoWorld).2.1 _ rfl, by decide,
    (Tee_Write_error demoOps demoFacs2 "entry" ["k"] demoWorld).2.2 (by decide), by decide⟩

/-- C3: `Tee(facs...).Enabled(level)` is the logical OR of the facilities'
`Enabled(level)`, for a list of any length; for the empty list it is false. -/
theorem Tee_Enabled_eq_any {F Entry Field CheckedEntry σ : Type}
    (ops : FacilityOps F Entry Field CheckedEntry σ) (facs : List (Facility F)) (lvl : Level) :
    Facility.Enabled ops (Tee facs) lvl = facs.any (fun c => Facility.Enabled ops c lvl) ∧
    Facility.Enabled ops (Tee ([] : List (Facility F))) lvl = false := by
  refine ⟨?_, by simp [Tee, NopFacility, Facility.Enabled]⟩
  match facs with
  | [] => simp [Tee, NopFacility, Facility.Enabled]
  | [f] => simp [Tee]
  | f :: g :: rest =>
    simp only [Tee, Facility.Enabled]
    rw [multiFacility.enabledLoop_eq_any]

/-- C4: `Tee(f)` is `f` itself, and `Tee` builds the composite of the given list
exactly when the list has two or more facilities (none gives the no-op facility). -/
theorem Tee_single_is_identity {F : Type} (facs : List (Facility F)) :
    (∀ f : Facility F, Tee [f] = f) ∧
    (Tee facs = Facility.multi facs ↔ 2 ≤ facs.length) ∧
    (Tee ([] : List (Facility F)) = NopFacility) := by
  refine ⟨fun f => rfl, ?_, rfl⟩
  match facs with
  | [] => simp [Tee, NopFacility]
  | [f] => simpa [Tee] using Facility.ne_multi_singleton f
  | f :: g :: rest => simp [Tee]

end zapcore

/-! ## The error aggregator -/

namespace multierror

/-- C5: `AsError` on a nil aggregator or on one with no error is nil; with one
accumulated error it is that error itself; with two or more it is the accumulated list
as a composite error, whose message is the children's messages joined by `"; "` in
accumulation order; the message of the nil or empty list is the empty string. -/
theorem AsError_cases :
    AsError none = none ∧
    AsError (some { errs := [] }) = none ∧
    (∀ e : GoError, AsError (some { errs := [e] }) = some e) ∧
    (∀ (e₁ e₂ : GoError) (rest : List GoError),
      AsError (some { errs := e₁ :: e₂ :: rest }) = some (GoError.errSlice (e₁ :: e₂ :: rest)) ∧
      (GoError.errSlice (e₁ :: e₂ :: rest)).Error =
        "; ".intercalate ((e₁ :: e₂ :: rest).map GoError.Error)) ∧
    errSlice.Error [] = "" := by
  refine ⟨rfl, rfl, fun _ => rfl, fun e₁ e₂ rest => ⟨rfl, ?_⟩, ?_⟩
  · rw [GoError.Error, errSlice_Error_eq_intercalate]
  · simp [errSlice.Error]

/-- C6: `Append` on any aggregator, nil or not, keeps the accumulated list when the
error is nil (it returns the receiver) and adds the error at its end when it is not,
in which case the aggregator returned is allocated; so after any sequence of `Append`s
the accumulated list is the list before followed by the non-nil errors of the
sequence, in order. -/
theorem Append_accumulates (agg : Option Error) :
    Append agg none = agg ∧
    (∀ e : GoError, accumulated (Append agg (some e)) = accumulated agg ++ [e] ∧
      (Append agg (some e)).isSome = true) ∧
    (∀ es : List (Option GoError),
      accumulated (es.foldl Append agg) = accumulated agg ++ es.reduceOption) := by
  refine ⟨by cases agg <;> rfl, fun e => ⟨?_, by cases agg <;> rfl⟩, fun es => ?_⟩
  · rw [accumulated_Append]; rfl
  · exact accumulated_foldl_Append es agg

end multierror

/-! ## The write path of the logger -/

namespace zap

/-- The method `internalError` reports the error: it does what `reported` says. -/
theorem internalError_eq_reported {Field σ : Type} (jl : jsonLogger Field σ) (e : GoError)
    (w : World Field σ) :
    jl.internalError e.Error w = reported jl (some e) w := by
  simp [jsonLogger.internalError, reported, errEvents]

/-- The calls that a report adds to the log. -/
theorem reported_trace {Field σ : Type} (jl : jsonLogger Field σ) (r : Option GoError)
    (w : World Field σ) :
    (reported jl r w).trace = w.trace ++ errEvents r := by
  cases r <;> simp [reported, errEvents]

/-- The hook loop is the left fold of `hookStep` over the hooks with their indices. -/
theorem hooksLoop_eq_foldl {Field σ : Type} (jl : jsonLogger Field σ) :
    ∀ (hooks : List (Hook Field σ)) (i : Nat) (entry : Entry Field) (w : World Field σ),
      jl.hooksLoop hooks i entry w = (hooks.enumFrom i).foldl (hookStep jl) (entry, w)
  | [], i, entry, w => by simp [jsonLogger.hooksLoop]
  | hook :: rest, i, entry, w => by
    rw [jsonLogger.hooksLoop, List.enumFrom_cons, List.foldl_cons]
    cases hr : (hook entry w.st).err with
    | none =>
      simp only [hookStep, hr, reported]
      exact hooksLoop_eq_foldl jl rest (i + 1) _ _
    | some e =>
      simp only [hookStep, hr, internalError_eq_reported]
      exact hooksLoop_eq_foldl jl rest (i + 1) _ _

/-- The calls that the fold of `hookStep` adds to the log are those of `hookCalls`. -/
theorem foldl_hookStep_trace {Field σ : Type} (jl : jsonLogger Field σ) :
    ∀ (hooks : List (Hook Field σ)) (i : Nat) (entry : Entry Field) (w : World Field σ),
      ((hooks.enumFrom i).foldl (hookStep jl) (entry, w)).2.trace =
        w.trace ++ hookEvents (hookCalls jl hooks i entry w)
  | [], i, entry, w => by simp [hookCalls, hookEvents]
  | hook :: rest, i, entry, w => by
    rw [List.enumFrom_cons, List.foldl_cons,
      foldl_hookStep_trace jl rest (i + 1) (hookStep jl (entry, w) (i, hook)).1
        (hookStep jl (entry, w) (i, hook)).2]
    simp [hookCalls, hookEvents, hookStep, reported_trace]

/-- The indices of the calls of the hooks are those of the hooks, in order. -/
theorem hookCalls_index {Field σ : Type} (jl : jsonLogger Field σ) :
    ∀ (hooks : List (Hook Field σ)) (i : Nat) (entry : Entry Field) (w : World Field σ),
      (hookCalls jl hooks i entry w).map HookCall.index = List.range' i hooks.length
  | [], i, entry, w => by simp [hookCalls]
  | hook :: rest, i, entry, w => by
    simp [hookCalls, hookCalls_index jl rest (i + 1), List.range'_succ]

/-- The first call of the hooks is given the entry the loop starts from. -/
theorem hookCalls_head {Field σ : Type} (jl : jsonLogger Field σ) :
    ∀ (hooks : List (Hook Field σ)) (i : Nat) (entry : Entry Field) (w : World Field σ),
      (hookCalls jl hooks i entry w).head?.map HookCall.entry = hooks.head?.map (fun _ => entry)
  | [], i, entry, w => by simp [hookCalls]
  | hook :: rest, i, entry, w => by simp [hookCalls]

/-- Hooks that leave the time of the entry as it is are all given an entry with the
time the loop starts from, and so is the write. -/
theorem hookCalls_time_of_keep {Field σ : Type} (jl : jsonLogger Field σ) :
    ∀ (hooks : List (Hook Field σ)) (i : Nat) (entry : Entry Field) (w : World Field σ),
      (∀ hook ∈ hooks, ∀ (e : Entry Field) (s : σ), (hook e s).entry.Time = e.Time) →
      (∀ c ∈ hookCalls jl hooks i entry w, c.entry.Time = entry.Time) ∧
        ((hooks.enumFrom i).foldl (hookStep jl) (entry, w)).1.Time = entry.Time
  | [], i, entry, w, _ => by simp [hookCalls]
  | hook :: rest, i, entry, w, hk => by
    have h1 : (hook entry w.st).entry.Time = entry.Time :=
      hk hook (List.mem_cons_self _ _) entry w.st
    have ih := hookCalls_time_of_keep jl rest (i + 1) (hookStep jl (entry, w) (i, hook)).1
      (hookStep jl (entry, w) (i, hook)).2 (fun g hg => hk g (List.mem_cons_of_mem _ hg))
    have h2 : (hookStep jl (entry, w) (i, hook)).1.Time = entry.Time := by simp [hookStep, h1]
    refine ⟨?_, ?_⟩
    · intro c hc
      simp only [hookCalls, List.mem_cons] at hc
      rcases hc with hc | hc
      · rw [hc]
      · exact (ih.1 c hc).trans h2
    · rw [List.enumFrom_cons, List.foldl_cons]
      exact ih.2.trans h2

/-- The calls that the hooks and the write of a call add to the log. -/
theorem afterWrite_trace {Field σ : Type} (jl : jsonLogger Field σ) (now : Time) (lvl : Level)
    (msg : String) (fields : List Field) (w : World Field σ) :
    (afterWrite jl now lvl msg fields w).trace =
      w.trace ++ (hookEvents (hookCalls jl jl.Hooks 0 (jl.buildEntry now lvl msg fields) w) ++
        [Event.writeEntry (writtenEntry jl now lvl msg fields w).enc.fields
          (writtenEntry jl now lvl msg fields w).Message
          (writtenEntry jl now lvl msg fields w).Level
          (writtenEntry jl now lvl msg fields w).Time
          (writeResult jl now lvl msg fields w)] ++
        errEvents (writeResult jl now lvl msg fields w)) := by
  simp only [afterWrite, reported_trace, afterHooks, List.enum]
  rw [foldl_hookStep_trace]
  simp [List.append_assoc]

/-- The world that the write path leaves at an enabled level: the world after the
hooks and the write, with the primary output synced when the level is above Error. -/
theorem log_eq_afterWrite {Field σ : Type} (jl : jsonLogger Field σ) (now : Time)
    (lvl : Level) (msg : String) (fields : List Field) (w : World Field σ)
    (h : jl.Level ≤ lvl) :
    jl.log now lvl msg fields w =
      (if ErrorLevel < lvl then synced jl (afterWrite jl now lvl msg fields w)
        else afterWrite jl now lvl msg fields w) := by
  have hfold : jl.hooksLoop jl.Hooks 0 (jl.buildEntry now lvl msg fields) w =
      afterHooks jl (jl.buildEntry now lvl msg fields) w := by
    rw [hooksLoop_eq_foldl]; rfl
  simp only [jsonLogger.log, ge_iff_le, h, not_true_eq_false, if_false, gt_iff_lt, hfold]
  cases hr : writeResult jl now lvl msg fields w with
  | none =>
    have hr2 := hr
    simp only [writeResult, writtenEntry] at hr2
    simp only [afterWrite, writtenEntry, hr, hr2, reported, synced]
  | some e =>
    have hr2 := hr
    simp only [writeResult, writtenEntry] at hr2
    simp only [afterWrite, writtenEntry, hr, hr2, internalError_eq_reported, synced]

/-- A report holds no hook call. -/
theorem errEvents_hookCall {Field : Type} (r : Option GoError) :
    (errEvents r : List (Event Field)).filterMap Event.hookCall? = [] := by
  cases r <;> simp [errEvents, Event.hookCall?]

/-- A report holds no write of an entry. -/
theorem errEvents_isWrite {Field : Type} (r : Option GoError) :
    (errEvents r : List (Event Field)).filter Event.isWrite = [] := by
  cases r <;> simp [errEvents, Event.isWrite]

/-- A report holds no sync of the primary output. -/
theorem errEvents_isOutputSync {Field : Type} (r : Option GoError) :
    (errEvents r : List (Event Field)).filter Event.isOutputSync = [] := by
  cases r <;> simp [errEvents, Event.isOutputSync]

/-- A report holds no write of an entry, so no time handed to the output. -/
theorem errEvents_writeTime {Field : Type} (r : Option GoError) :
    (errEvents r : List (Event Field)).filterMap Event.writeTime? = [] := by
  cases r <;> simp [errEvents, Event.writeTime?]

/-- The hook calls in the events of the hook loop: the calls, in order. -/
theorem hookEvents_hookCall {Field : Type} :
    ∀ cs : List (HookCall Field),
      (hookEvents cs).filterMap Event.hookCall? = cs.map (fun c => (c.index, c.entry))
  | [] => by simp [hookEvents]
  | c :: cs => by
    simp [hookEvents, Event.hookCall?, errEvents_hookCall, hookEvents_hookCall cs]

/-- The hook loop holds no write of an entry. -/
theorem hookEvents_isWrite {Field : Type} :
    ∀ cs : List (HookCall Field), (hookEvents cs).filter Event.isWrite = []
  | [] => by simp [hookEvents]
  | c :: cs => by
    simp [hookEvents, Event.isWrite, errEvents_isWrite, hookEvents_isWrite cs]

/-- The hook loop holds no sync of the primary output. -/
theorem hookEvents_isOutputSync {Field : Type} :
    ∀ cs : List (HookCall Field), (hookEvents cs).filter Event.isOutputSync = []
  | [] => by simp [hookEvents]
  | c :: cs => by
    simp [hookEvents, Event.isOutputSync, errEvents_isOutputSync, hookEvents_isOutputSync cs]

/-- The hook loop hands no time to the output. -/
theorem hookEvents_writeTime {Field : Type} :
    ∀ cs : List (HookCall Field), (hookEvents cs).filterMap Event.writeTime? = []
  | [] => by simp [hookEvents]
  | c :: cs => by
    simp [hookEvents, Event.writeTime?, errEvents_writeTime, hookEvents_writeTime cs]

/-- C7: at a level strictly below the logger's minimum level the write path does no
work: the world is left as it was, state and log of calls alike, so no hook is called,
nothing is written to the primary or to the error output and nothing is synced; and
`Debug`, `Info`, `Warn` and `Error` are that write path at their level. -/
theorem log_below_level_does_nothing {Field σ : Type} (jl : jsonLogger Field σ) (now : Time)
    (lvl : Level) (msg : String) (fields : List Field) (w : World Field σ)
    (h : lvl < jl.Level) :
    jl.log now lvl msg fields w = w ∧
    jl.Debug now msg fields w = jl.log now DebugLevel msg fields w ∧
    jl.Info now msg fields w = jl.log now InfoLevel msg fields w ∧
    jl.Warn now msg fields w = jl.log now WarnLevel msg fields w ∧
    jl.Error now msg fields w = jl.log now ErrorLevel msg fields w := by
  refine ⟨?_, rfl, rfl, rfl, rfl⟩
  have : ¬ (lvl ≥ jl.Level) := not_le.mpr h
  simp [jsonLogger.log, this]

/-- A Debug call on a logger at Info level leaves the world as it was. -/
theorem log_below_level_does_nothing_witness :
    DebugLevel < demoLogger.Level ∧
    demoLogger.log 5 DebugLevel "Nesting context." ["outer"] demoLogWorld = demoLogWorld :=
  ⟨by decide,
    (log_below_level_does_nothing demoLogger 5 DebugLevel "Nesting context." ["outer"]
      demoLogWorld (by decide)).1⟩

/-- C8: `Check(level, msg)` returns nil exactly when the level is below the logger's
minimum level; otherwise it returns the handle bound to this logger, this level and
this message. -/
theorem Check_nil_iff_below_level {Field σ : Type} (jl : jsonLogger Field σ) (lvl : Level)
    (msg : String) :
    (jl.Check lvl msg = none ↔ lvl < jl.Level) ∧
    (¬ lvl < jl.Level →
      jl.Check lvl msg = some { logger := jl, lvl := lvl, msg := msg }) := by
  by_cases h : lvl < jl.Level
  · have h2 : ¬ (lvl ≥ jl.Level) := not_le.mpr h
    simp [jsonLogger.Check, h, h2]
  · have h2 : lvl ≥ jl.Level := not_lt.mp h
    simp [jsonLogger.Check, h, h2, NewCheckedMessage]

/-- A Warn check on a logger at Info level gives the handle. -/
theorem Check_nil_iff_below_level_witness :
    ¬ WarnLevel < demoLogger.Level ∧
    demoLogger.Check WarnLevel "m" =
      some { logger := demoLogger, lvl := WarnLevel, msg := "m" } :=
  ⟨by decide, (Check_nil_iff_below_level demoLogger WarnLevel "m").2 (by decide)⟩

/-- C10: at an enabled level the world that the write path leaves is the world after
the hooks and the write, with the primary output synced, state and log of calls alike,
when the level is above Error, and that world itself otherwise.  The calls before the
sync hold the one write of the entry and no sync of the primary output: the write path
syncs the primary output, after the write and as its last call, exactly when the level
is above Error.  Panic and Fatal are above Error; Debug, Info, Warn and Error are
not. -/
theorem log_syncs_iff_above_Error {Field σ : Type} (jl : jsonLogger Field σ)
    (now : Time) (lvl : Level) (msg : String) (fields : List Field) (w : World Field σ)
    (h : jl.Level ≤ lvl) :
    jl.log now lvl msg fields w =
      (if ErrorLevel < lvl then synced jl (afterWrite jl now lvl msg fields w)
        else afterWrite jl now lvl msg fields w) ∧
    (jl.log now lvl msg fields w).st =
      (if ErrorLevel < lvl then jl.Output.Sync (afterWrite jl now lvl msg fields w).st
        else (afterWrite jl now lvl msg fields w).st) ∧
    ∃ before new : List (Event Field),
      (afterWrite jl now lvl msg fields w).trace = w.trace ++ before ∧
      (jl.log now lvl msg fields w).trace = w.trace ++ new ∧
      new = before ++ (if ErrorLevel < lvl then [Event.outputSync] else []) ∧
      (before.filter Event.isWrite).length = 1 ∧
      before.filter Event.isOutputSync = [] ∧
      (new.filter Event.isOutputSync).length = (if ErrorLevel < lvl then 1 else 0) ∧
      (Event.outputSync ∈ new ↔ ErrorLevel < lvl) ∧
      (ErrorLevel < PanicLevel ∧ ErrorLevel < FatalLevel ∧ ¬ ErrorLevel < DebugLevel ∧
        ¬ ErrorLevel < InfoLevel ∧ ¬ ErrorLevel < WarnLevel ∧ ¬ ErrorLevel < ErrorLevel) := by
  have heq := log_eq_afterWrite jl now lvl msg fields w h
  have htr := afterWrite_trace jl now lvl msg fields w
  have hcount : ∀ l : List (Event Field), l.filter Event.isOutputSync = [] →
      Event.outputSync ∉ l := by
    intro l hl hmem
    have : Event.outputSync ∈ l.filter Event.isOutputSync :=
      List.mem_filter.mpr ⟨hmem, rfl⟩
    rw [hl] at this
    cases this
  have hbefore : (hookEvents (hookCalls jl jl.Hooks 0 (jl.buildEntry now lvl msg fields) w) ++
      [Event.writeEntry (writtenEntry jl now lvl msg fields w).enc.fields
        (writtenEntry jl now lvl msg fields w).Message
        (writtenEntry jl now lvl msg fields w).Level
        (writtenEntry jl now lvl msg fields w).Time
        (writeResult jl now lvl msg fields w)] ++
      errEvents (writeResult jl now lvl msg fields w)).filter Event.isOutputSync = [] := by
    simp [List.filter_append, hookEvents_isOutputSync, errEvents_isOutputSync,
      Event.isOutputSync]
  have hwrite : ((hookEvents (hookCalls jl jl.Hooks 0 (jl.buildEntry now lvl msg fields) w) ++
      [Event.writeEntry (writtenEntry jl now lvl msg fields w).enc.fields
        (writtenEntry jl now lvl msg fields w).Message
        (writtenEntry jl now lvl msg fields w).Level
        (writtenEntry jl now lvl msg fields w).Time
        (writeResult jl now lvl msg fields w)] ++
      errEvents (writeResult jl now lvl msg fields w)).filter Event.isWrite).length = 1 := by
    simp [List.filter_append, hookEvents_isWrite, errEvents_isWrite, Event.isWrite]
  refine ⟨heq, ?_, _, _, htr, ?_, rfl, hwrite, hbefore, ?_, ?_, by decide⟩
  · rw [heq]
    by_cases hs : ErrorLevel < lvl <;> simp [hs, synced]
  · rw [heq]
    by_cases hs : ErrorLevel < lvl
    · simp only [hs, if_true, synced, htr, List.append_assoc]
    · simp only [hs, if_false, htr, List.append_nil]
  · rw [List.filter_append, hbefore]
    by_cases hs : ErrorLevel < lvl <;> simp [hs, Event.isOutputSync]
  · by_cases hs : ErrorLevel < lvl
    · simp [hs]
    · simp only [hs, if_false, List.append_nil, iff_false]
      exact hcount _ hbefore

/-- A Panic-level write on a logger at Info level ends with the sync, which is applied
to the state of the primary output. -/
theorem log_syncs_iff_above_Error_witness :
    demoLogger.Level ≤ PanicLevel ∧
    demoLogger.log 5 PanicLevel "m" [] demoLogWorld =
      { st := 8,
        trace :=
          [Event.hook 0 (demoLogger.buildEntry 5 PanicLevel "m" []) none,
           Event.hook 1 (demoLogger.buildEntry 5 PanicLevel "m" [])
             (some (GoError.value 1 "hook failed")),
           Event.errWrite "hook failed\n", Event.errSync,
           Event.writeEntry ["svc"] "m" PanicLevel 5 (some (GoError.value 2 "write failed")),
           Event.errWrite "write failed\n", Event.errSync, Event.outputSync] } ∧
    (afterWrite demoLogger 5 PanicLevel "m" [] demoLogWorld).st = 7 ∧
    (demoLogger.log 5 PanicLevel "m" [] demoLogWorld =
      (if ErrorLevel < PanicLevel
        then synced demoLogger (afterWrite demoLogger 5 PanicLevel "m" [] demoLogWorld)
        else afterWrite demoLogger 5 PanicLevel "m" [] demoLogWorld) ∧
    (demoLogger.log 5 PanicLevel "m" [] demoLogWorld).st =
      (if ErrorLevel < PanicLevel
        then demoLogger.Output.Sync (afterWrite demoLogger 5 PanicLevel "m" [] demoLogWorld).st
        else (afterWrite demoLogger 5 PanicLevel "m" [] demoLogWorld).st) ∧
    ∃ before new : List (Event String),
      (afterWrite demoLogger 5 PanicLevel "m" [] demoLogWorld).trace =
        demoLogWorld.trace ++ before ∧
      (demoLogger.log 5 PanicLevel "m" [] demoLogWorld).trace = demoLogWorld.trace ++ new ∧
      new = before ++ (if ErrorLevel < PanicLevel then [Event.outputSync] else []) ∧
      (before.filter Event.isWrite).length = 1 ∧
      before.filter Event.isOutputSync = [] ∧
      (new.filter Event.isOutputSync).length = (if ErrorLevel < PanicLevel then 1 else 0) ∧
      (Event.outputSync ∈ new ↔ ErrorLevel < PanicLevel) ∧
      (ErrorLevel < PanicLevel ∧ ErrorLevel < FatalLevel ∧ ¬ ErrorLevel < DebugLevel ∧
        ¬ ErrorLevel < InfoLevel ∧ ¬ ErrorLevel < WarnLevel ∧ ¬ ErrorLevel < ErrorLevel)) :=
  ⟨by decide, rfl, rfl,
    log_syncs_iff_above_Error demoLogger 5 PanicLevel "m" [] demoLogWorld (by decide)⟩

end zap

/-! ## `Log`, `DFatal` and `StubTime` -/

namespace zap

/-- The entry that a logger builds once `StubTime` has been called: its timestamp is
the epoch, whatever the wall-clock time. -/
theorem buildEntry_StubTime {Field σ : Type} (jl : jsonLogger Field σ) (now : Time)
    (lvl : Level) (msg : String) (fields : List Field) :
    (jl.StubTime).buildEntry now lvl msg fields =
      { Level := lvl, Time := 0, Message := msg,
        enc := { fields := jl.Encoder.fields ++ fields } } := by
  simp [jsonLogger.buildEntry, jsonLogger.StubTime, newEntry, encoder.Clone,
    encoder.AddFields]

/-- C11: `Log` at Panic level runs the write path at Panic level and then panics with
the message; at Fatal level it runs the write path at Fatal level and then exits with
status 1; at any other level it runs the write path at that level and returns.  This
holds whatever the minimum level of the logger. -/
theorem Log_dispatches_on_level {Field σ : Type} (jl : jsonLogger Field σ) (now : Time)
    (lvl : Level) (msg : String) (fields : List Field) (w : World Field σ) :
    jl.Log now PanicLevel msg fields w =
      (jl.log now PanicLevel msg fields w, Outcome.panicked msg) ∧
    jl.Log now FatalLevel msg fields w =
      (jl.log now FatalLevel msg fields w, Outcome.exited 1) ∧
    (lvl ≠ PanicLevel → lvl ≠ FatalLevel →
      jl.Log now lvl msg fields w = (jl.log now lvl msg fields w, Outcome.returned)) := by
  refine ⟨?_, ?_, ?_⟩
  · simp [jsonLogger.Log, jsonLogger.Panic]
  · have hne : FatalLevel ≠ PanicLevel := by decide
    simp [jsonLogger.Log, jsonLogger.Fatal, hne]
  · intro h1 h2
    simp [jsonLogger.Log, h1, h2]

/-- A Warn call through `Log` returns; on a logger whose minimum level is above Fatal,
`Log` at Panic level writes nothing and panics all the same. -/
theorem Log_dispatches_on_level_witness :
    WarnLevel ≠ PanicLevel ∧ WarnLevel ≠ FatalLevel ∧
    demoLogger.Log 5 WarnLevel "m" ["k"] demoLogWorld =
      (demoLogger.log 5 WarnLevel "m" ["k"] demoLogWorld, Outcome.returned) ∧
    silentLogger.Log 5 PanicLevel "m" ["k"] demoLogWorld =
      (silentLogger.log 5 PanicLevel "m" ["k"] demoLogWorld, Outcome.panicked "m") ∧
    silentLogger.log 5 PanicLevel "m" ["k"] demoLogWorld = demoLogWorld :=
  ⟨by decide, by decide,
    (Log_dispatches_on_level demoLogger 5 WarnLevel "m" ["k"] demoLogWorld).2.2
      (by decide) (by decide),
    (Log_dispatches_on_level silentLogger 5 WarnLevel "m" ["k"] demoLogWorld).1, rfl⟩

/-- C12: `DFatal` does what the spec says: with development mode off it does exactly
what `Error` does, the write path at Error level, and returns; with development mode
on it does exactly what `Fatal` does, the write path at Fatal level and then the exit
with status 1, and when the Fatal level is enabled that write path makes one write of
the entry and ends with the sync of the primary output. -/
theorem DFatal_is_Error_or_Fatal {Field σ : Type} (jl : jsonLogger Field σ) (now : Time)
    (msg : String) (fields : List Field) (w : World Field σ) :
    jl.DFatal now msg fields w = DFatalSpec jl now msg fields w ∧
    (jl.Development = false →
      jl.DFatal now msg fields w = (jl.Error now msg fields w, Outcome.returned) ∧
      jl.DFatal now msg fields w = (jl.log now ErrorLevel msg fields w, Outcome.returned)) ∧
    (jl.Development = true →
      jl.DFatal now msg fields w = jl.Fatal now msg fields w ∧
      jl.DFatal now msg fields w = (jl.log now FatalLevel msg fields w, Outcome.exited 1) ∧
      (jl.Level ≤ FatalLevel →
        ∃ before : List (Event Field),
          (jl.DFatal now msg fields w).1.trace = w.trace ++ (before ++ [Event.outputSync]) ∧
          (before.filter Event.isWrite).length = 1 ∧
          before.filter Event.isOutputSync = [])) := by
  refine ⟨?_, ?_, ?_⟩
  · cases hd : jl.Development <;> simp [jsonLogger.DFatal, DFatalSpec, hd]
  · intro hd
    simp [jsonLogger.DFatal, jsonLogger.Error, hd]
  · intro hd
    refine ⟨by simp [jsonLogger.DFatal, hd], by simp [jsonLogger.DFatal, jsonLogger.Fatal, hd],
      fun hl => ?_⟩
    have hF : ErrorLevel < FatalLevel := by decide
    refine ⟨hookEvents (hookCalls jl jl.Hooks 0 (jl.buildEntry now FatalLevel msg fields) w) ++
      [Event.writeEntry (writtenEntry jl now FatalLevel msg fields w).enc.fields
        (writtenEntry jl now FatalLevel msg fields w).Message
        (writtenEntry jl now FatalLevel msg fields w).Level
        (writtenEntry jl now FatalLevel msg fields w).Time
        (writeResult jl now FatalLevel msg fields w)] ++
      errEvents (writeResult jl now FatalLevel msg fields w), ?_, ?_, ?_⟩
    · simp only [jsonLogger.DFatal, hd, if_true, jsonLogger.Fatal]
      rw [log_eq_afterWrite jl now FatalLevel msg fields w hl]
      simp only [hF, if_true, synced, afterWrite_trace]
      simp
    · simp [List.filter_append, hookEvents_isWrite, errEvents_isWrite, Event.isWrite]
    · simp [List.filter_append, hookEvents_isOutputSync, errEvents_isOutputSync,
        Event.isOutputSync]

/-- With development mode off `DFatal` is `Error`; with development mode on it is
`Fatal`, and its write path ends with the sync. -/
theorem DFatal_is_Error_or_Fatal_witness :
    demoLogger.Development = false ∧
    demoLogger.DFatal 5 "m" ["k"] demoLogWorld =
      (demoLogger.Error 5 "m" ["k"] demoLogWorld, Outcome.returned) ∧
    devLogger.Development = true ∧
    devLogger.DFatal 5 "m" ["k"] demoLogWorld = devLogger.Fatal 5 "m" ["k"] demoLogWorld ∧
    devLogger.Level ≤ FatalLevel ∧
    (∃ before : List (Event String),
      (devLogger.DFatal 5 "m" ["k"] demoLogWorld).1.trace =
        demoLogWorld.trace ++ (before ++ [Event.outputSync]) ∧
      (before.filter Event.isWrite).length = 1 ∧
      before.filter Event.isOutputSync = []) :=
  ⟨rfl, ((DFatal_is_Error_or_Fatal demoLogger 5 "m" ["k"] demoLogWorld).2.1 rfl).1,
    rfl, ((DFatal_is_Error_or_Fatal devLogger 5 "m" ["k"] demoLogWorld).2.2 rfl).1,
    by decide,
    ((DFatal_is_Error_or_Fatal devLogger 5 "m" ["k"] demoLogWorld).2.2 rfl).2.2
      (by decide)⟩

/-- C13, as stated, fails: on a stubbed logger whose first hook sets the time of the
entry to 9, a Warn call hands an entry with time 9 to the second hook and the time 9
to `WriteEntry` on the primary output. -/
theorem StubTime_timestamp_counterexample :
    (retimeLogger.StubTime).Level ≤ WarnLevel ∧
    ((retimeLogger.StubTime).log 5 WarnLevel "m" [] demoLogWorld).trace =
      [Event.hook 0 { Level := WarnLevel, Time := 0, Message := "m", enc := { fields := [] } }
         none,
       Event.hook 1 { Level := WarnLevel, Time := 9, Message := "m", enc := { fields := [] } }
         none,
       Event.writeEntry [] "m" WarnLevel 9 none] ∧
    (((retimeLogger.StubTime).log 5 WarnLevel "m" [] demoLogWorld).trace.filterMap
      Event.hookCall?).map (fun p => p.2.Time) = [0, 9] ∧
    ((retimeLogger.StubTime).log 5 WarnLevel "m" [] demoLogWorld).trace.filterMap
      Event.writeTime? = [9] ∧
    ¬ (∀ p ∈ ((retimeLogger.StubTime).log 5 WarnLevel "m" [] demoLogWorld).trace.filterMap
      Event.hookCall?, p.2.Time = 0) ∧
    ((retimeLogger.StubTime).log 5 WarnLevel "m" [] demoLogWorld).trace.filterMap
      Event.writeTime? ≠ [0] := by
  have htr : ((retimeLogger.StubTime).log 5 WarnLevel "m" [] demoLogWorld).trace =
      [Event.hook 0 { Level := WarnLevel, Time := 0, Message := "m", enc := { fields := [] } }
         none,
       Event.hook 1 { Level := WarnLevel, Time := 9, Message := "m", enc := { fields := [] } }
         none,
       Event.writeEntry [] "m" WarnLevel 9 none] := rfl
  refine ⟨by decide, htr, ?_, ?_, ?_, ?_⟩
  · rw [htr]; rfl
  · rw [htr]; rfl
  · rw [htr]
    simp [Event.hookCall?]
  · rw [htr]
    simp [Event.writeTime?]

/-- C13, amended: once `StubTime` has been called on a logger, a call at an enabled
level builds its entry with the epoch as timestamp, whatever the wall-clock time, and
the first hook is given that entry; the time handed to the one `WriteEntry` on the
primary output is the time of the entry as the hooks left it; when no hook changes the
time of the entry, every hook is given an entry whose time is the epoch and the output
is handed the epoch; the world that the write path leaves does not depend on the
wall-clock time of the call; and a logger derived by `With` keeps the override. -/
theorem StubTime_fixes_the_built_timestamp {Field σ : Type} (jl : jsonLogger Field σ)
    (now : Time) (lvl : Level) (msg : String) (fields : List Field) (w : World Field σ)
    (h : (jl.StubTime).Level ≤ lvl) :
    ((jl.StubTime).buildEntry now lvl msg fields).Time = 0 ∧
    (hookCalls (jl.StubTime) (jl.StubTime).Hooks 0
        ((jl.StubTime).buildEntry now lvl msg fields) w).head?.map HookCall.entry =
      (jl.StubTime).Hooks.head?.map (fun _ => (jl.StubTime).buildEntry now lvl msg fields) ∧
    (∃ new : List (Event Field),
      ((jl.StubTime).log now lvl msg fields w).trace = w.trace ++ new ∧
      (new.filterMap Event.hookCall?).length = jl.Hooks.length ∧
      new.filterMap Event.writeTime? =
        [(writtenEntry (jl.StubTime) now lvl msg fields w).Time] ∧
      ((∀ hook ∈ jl.Hooks, ∀ (e : Entry Field) (s : σ), (hook e s).entry.Time = e.Time) →
        (∀ p ∈ new.filterMap Event.hookCall?, p.2.Time = 0) ∧
        new.filterMap Event.writeTime? = [0])) ∧
    (∀ now' : Time,
      (jl.StubTime).log now' lvl msg fields w = (jl.StubTime).log now lvl msg fields w) ∧
    (∀ fs : List Field, ((jl.StubTime).With fs).alwaysEpoch = true) := by
  have hT : ((jl.StubTime).buildEntry now lvl msg fields).Time = 0 := by
    rw [buildEntry_StubTime]
  have heq := log_eq_afterWrite (jl.StubTime) now lvl msg fields w h
  have htr := afterWrite_trace (jl.StubTime) now lvl msg fields w
  have hcalls : ∀ l : List (Event Field),
      (hookEvents (hookCalls (jl.StubTime) (jl.StubTime).Hooks 0
        ((jl.StubTime).buildEntry now lvl msg fields) w) ++
      [Event.writeEntry (writtenEntry (jl.StubTime) now lvl msg fields w).enc.fields
        (writtenEntry (jl.StubTime) now lvl msg fields w).Message
        (writtenEntry (jl.StubTime) now lvl msg fields w).Level
        (writtenEntry (jl.StubTime) now lvl msg fields w).Time
        (writeResult (jl.StubTime) now lvl msg fields w)] ++
      errEvents (writeResult (jl.StubTime) now lvl msg fields w) ++
      (if ErrorLevel < lvl then [Event.outputSync] else l.filter (fun _ => false))).filterMap
        Event.hookCall? =
      (hookCalls (jl.StubTime) (jl.StubTime).Hooks 0
        ((jl.StubTime).buildEntry now lvl msg fields) w).map (fun c => (c.index, c.entry)) := by
    intro l
    by_cases hs : ErrorLevel < lvl <;>
      simp [hs, List.filterMap_append, hookEvents_hookCall, errEvents_hookCall,
        Event.hookCall?]
  have hnew : ((jl.StubTime).log now lvl msg fields w).trace =
      w.trace ++ (hookEvents (hookCalls (jl.StubTime) (jl.StubTime).Hooks 0
        ((jl.StubTime).buildEntry now lvl msg fields) w) ++
      [Event.writeEntry (writtenEntry (jl.StubTime) now lvl msg fields w).enc.fields
        (writtenEntry (jl.StubTime) now lvl msg fields w).Message
        (writtenEntry (jl.StubTime) now lvl msg fields w).Level
        (writtenEntry (jl.StubTime) now lvl msg fields w).Time
        (writeResult (jl.StubTime) now lvl msg fields w)] ++
      errEvents (writeResult (jl.StubTime) now lvl msg fields w) ++
      (if ErrorLevel < lvl then [Event.outputSync]
        else ([] : List (Event Field)).filter (fun _ => false))) := by
    rw [heq]
    by_cases hs : ErrorLevel < lvl
    · simp only [hs, if_true, synced, htr, List.append_assoc]
    · simp only [hs, if_false, htr, List.append_assoc, List.filter_nil, List.append_nil]
  have hwt : (hookEvents (hookCalls (jl.StubTime) (jl.StubTime).Hooks 0
        ((jl.StubTime).buildEntry now lvl msg fields) w) ++
      [Event.writeEntry (writtenEntry (jl.StubTime) now lvl msg fields w).enc.fields
        (writtenEntry (jl.StubTime) now lvl msg fields w).Message
        (writtenEntry (jl.StubTime) now lvl msg fields w).Level
        (writtenEntry (jl.StubTime) now lvl msg fields w).Time
        (writeResult (jl.StubTime) now lvl msg fields w)] ++
      errEvents (writeResult (jl.StubTime) now lvl msg fields w) ++
      (if ErrorLevel < lvl then [Event.outputSync]
        else ([] : List (Event Field)).filter (fun _ => false))).filterMap Event.writeTime? =
      [(writtenEntry (jl.StubTime) now lvl msg fields w).Time] := by
    by_cases hs : ErrorLevel < lvl <;>
      simp [hs, List.filterMap_append, hookEvents_writeTime, errEvents_writeTime,
        Event.writeTime?]
  refine ⟨hT, hookCalls_head _ _ _ _ _, ⟨_, hnew, ?_, hwt, ?_⟩, ?_, fun fs => rfl⟩
  · rw [hcalls, List.length_map, ← List.length_map _ HookCall.index, hookCalls_index]
    simp [jsonLogger.StubTime]
  · intro hk
    have hkeep := hookCalls_time_of_keep (jl.StubTime) (jl.StubTime).Hooks 0
      ((jl.StubTime).buildEntry now lvl msg fields) w hk
    refine ⟨?_, ?_⟩
    · intro p hp
      rw [hcalls] at hp
      obtain ⟨c, hc, hcp⟩ := List.mem_map.mp hp
      rw [← hcp]
      exact (hkeep.1 c hc).trans hT
    · rw [hwt]
      have : (writtenEntry (jl.StubTime) now lvl msg fields w).Time = 0 := by
        have h2 := hkeep.2
        simp only [writtenEntry, afterHooks, List.enum]
        exact h2.trans hT
      rw [this]
  · intro now'
    have hb : (jl.StubTime).buildEntry now' lvl msg fields =
        (jl.StubTime).buildEntry now lvl msg fields := by
      rw [buildEntry_StubTime, buildEntry_StubTime]
    simp only [jsonLogger.log, hb]

/-- A Warn call, made at wall-clock time 5 on the stubbed `demoLogger`, whose hooks
only read the entry, hands the epoch to both hooks and to the output. -/
theorem StubTime_fixes_the_built_timestamp_witness :
    (demoLogger.StubTime).Level ≤ WarnLevel ∧
    (∀ hook ∈ demoLogger.Hooks, ∀ (e : Entry String) (s : Nat),
      (hook e s).entry.Time = e.Time) ∧
    ((demoLogger.StubTime).log 5 WarnLevel "m" ["k"] demoLogWorld).trace =
      [Event.hook 0 { Level := WarnLevel, Time := 0, Message := "m",
                      enc := { fields := ["svc", "k"] } } none,
       Event.hook 1 { Level := WarnLevel, Time := 0, Message := "m",
                      enc := { fields := ["svc", "k"] } }
         (some (GoError.value 1 "hook failed")),
       Event.errWrite "hook failed\n", Event.errSync,
       Event.writeEntry ["svc", "k"] "m" WarnLevel 0 (some (GoError.value 2 "write failed")),
       Event.errWrite "write failed\n", Event.errSync] ∧
    ((demoLogger.StubTime).buildEntry 5 WarnLevel "m" ["k"]).Time = 0 ∧
    (∃ new : List (Event String),
      ((demoLogger.StubTime).log 5 WarnLevel "m" ["k"] demoLogWorld).trace =
        demoLogWorld.trace ++ new ∧
      (∀ p ∈ new.filterMap Event.hookCall?, p.2.Time = 0) ∧
      new.filterMap Event.writeTime? = [0]) ∧
    (∀ now' : Time,
      (demoLogger.StubTime).log now' WarnLevel "m" ["k"] demoLogWorld =
        (demoLogger.StubTime).log 5 WarnLevel "m" ["k"] demoLogWorld) := by
  have hk : ∀ hook ∈ demoLogger.Hooks, ∀ (e : Entry String) (s : Nat),
      (hook e s).entry.Time = e.Time := by
    intro hook hm e s
    simp only [demoLogger, List.mem_cons, List.mem_singleton, List.not_mem_nil, or_false] at hm
    rcases hm with hm | hm <;> rw [hm]
  have hle : (demoLogger.StubTime).Level ≤ WarnLevel := by decide
  obtain ⟨new, h1, _, _, h4⟩ :=
    (StubTime_fixes_the_built_timestamp demoLogger 5 WarnLevel "m" ["k"] demoLogWorld hle).2.2.1
  exact ⟨hle, hk, rfl,
    (StubTime_fixes_the_built_timestamp demoLogger 5 WarnLevel "m" ["k"] demoLogWorld hle).1,
    ⟨new, h1, (h4 hk).1, (h4 hk).2⟩,
    (StubTime_fixes_the_built_timestamp demoLogger 5 WarnLevel "m" ["k"] demoLogWorld
      hle).2.2.2.1⟩

end zap

/-! ## `multiFacility.With` and `multiFacility.Check` -/

namespace zapcore

/-- The loop of `multiFacility.With` maps `With` over the children. -/
theorem multiFacility.withLoop_eq_map {F Entry Field CheckedEntry σ : Type}
    (ops : FacilityOps F Entry Field CheckedEntry σ) (fields : List Field) :
    ∀ mf : List (Facility F),
      multiFacility.withLoop ops mf fields = mf.map (fun c => Facility.With ops c fields)
  | [] => by simp [multiFacility.withLoop]
  | c :: rest => by
    simp [multiFacility.withLoop, multiFacility.withLoop_eq_map ops fields rest]

/-- The two slices after the first `k` iterations of the loop of `multiFacility.With`:
the receiver's slice is as it was, the first `k` slots of the clone are assigned and
the others are still nil. -/
theorem multiFacility.withIter_eq {F Entry Field CheckedEntry σ : Type}
    (ops : FacilityOps F Entry Field CheckedEntry σ) (fields : List Field)
    (mf : List (Facility F)) :
    ∀ k : Nat, k ≤ mf.length →
      multiFacility.withIter ops fields k { mf := mf, clone := List.replicate mf.length none } =
        { mf := mf,
          clone := (mf.take k).map (fun c => some (Facility.With ops c fields)) ++
            List.replicate (mf.length - k) none }
  | 0, _ => by simp [multiFacility.withIter]
  | k + 1, hk => by
    have hlt : k < mf.length := hk
    rw [multiFacility.withIter, multiFacility.withIter_eq ops fields mf k (Nat.le_of_lt hlt)]
    have hlen : ((mf.take k).map (fun c => some (Facility.With ops c fields))).length = k := by
      simp [List.length_take, Nat.min_eq_left (Nat.le_of_lt hlt)]
    have hA : (mf.take (k + 1)).map (fun c => some (Facility.With ops c fields)) =
        (mf.take k).map (fun c => some (Facility.With ops c fields)) ++
          [some (Facility.With ops mf[k] fields)] := by
      rw [List.take_succ, List.getElem?_eq_getElem hlt, List.map_append]
      rfl
    have hB : List.replicate (mf.length - k) (none : Option (Facility F)) =
        none :: List.replicate (mf.length - (k + 1)) none := by
      have hrep : mf.length - k = (mf.length - (k + 1)) + 1 := by omega
      rw [hrep, List.replicate_succ]
    have hset : ((mf.take k).map (fun c => some (Facility.With ops c fields)) ++
        none :: List.replicate (mf.length - (k + 1)) none).set k
          (some (Facility.With ops mf[k] fields)) =
        (mf.take k).map (fun c => some (Facility.With ops c fields)) ++
          some (Facility.With ops mf[k] fields) ::
            List.replicate (mf.length - (k + 1)) none := by
      rw [List.set_append_right _ _ (by omega), hlen]
      simp
    simp only [multiFacility.withStep, List.getElem?_eq_getElem hlt, Option.map_some']
    rw [hB, hset, hA]
    simp

mutual
/-- The `Check` of a facility is the fold of the `Check` of the sinks under it. -/
theorem Facility.Check_eq_foldl_sinks {F Entry Field CheckedEntry σ : Type}
    (ops : FacilityOps F Entry Field CheckedEntry σ) (ent : Entry) :
    ∀ (c : Facility F) (ce : Option CheckedEntry),
      Facility.Check ops c ent ce =
        (Facility.sinks c).foldl (fun acc f => ops.Check f ent acc) ce
  | .nop, ce => by simp [Facility.Check, Facility.sinks]
  | .ext f, ce => by simp [Facility.Check, Facility.sinks]
  | .multi mf, ce => by
    simp only [Facility.Check, Facility.sinks]
    exact checkLoop_eq_foldl_sinks ops ent mf ce
/-- The loop of `multiFacility.Check` is the fold of the `Check` of the sinks. -/
theorem checkLoop_eq_foldl_sinks {F Entry Field CheckedEntry σ : Type}
    (ops : FacilityOps F Entry Field CheckedEntry σ) (ent : Entry) :
    ∀ (mf : List (Facility F)) (ce : Option CheckedEntry),
      multiFacility.checkLoop ops mf ent ce =
        (multiFacility.sinks mf).foldl (fun acc f => ops.Check f ent acc) ce
  | [], ce => by simp [multiFacility.checkLoop, multiFacility.sinks]
  | c :: rest, ce => by
    rw [multiFacility.checkLoop, checkLoop_eq_foldl_sinks ops ent rest,
      Facility.Check_eq_foldl_sinks ops ent c ce]
    simp [multiFacility.sinks, List.foldl_append]
end

/-- The loop of `multiFacility.Check` is the left fold of the children's `Check`. -/
theorem multiFacility.checkLoop_eq_foldl {F Entry Field CheckedEntry σ : Type}
    (ops : FacilityOps F Entry Field CheckedEntry σ) (ent : Entry) :
    ∀ (mf : List (Facility F)) (ce : Option CheckedEntry),
      multiFacility.checkLoop ops mf ent ce =
        mf.foldl (fun acc c => Facility.Check ops c ent acc) ce
  | [], ce => by simp [multiFacility.checkLoop]
  | c :: rest, ce => by
    rw [multiFacility.checkLoop, multiFacility.checkLoop_eq_foldl ops ent rest]
    simp

/-- C14: `mf.With(fields)` is a new composite with as many children as `mf`, whose
child at every index is the `With(fields)` of the child of `mf` at that index; run on
the two slices, the loop assigns every slot of the clone and leaves the slice of `mf`
as it was. -/
theorem multiFacility_With_maps_every_child {F Entry Field CheckedEntry σ : Type}
    (ops : FacilityOps F Entry Field CheckedEntry σ) (mf : multiFacility F)
    (fields : List Field) :
    multiFacility.With ops mf fields =
      Facility.multi (mf.map (fun c => Facility.With ops c fields)) ∧
    Facility.With ops (Facility.multi mf) fields = multiFacility.With ops mf fields ∧
    (multiFacility.withLoop ops mf fields).length = mf.length ∧
    (∀ i : Nat, (multiFacility.withLoop ops mf fields)[i]? =
      (mf[i]?).map (fun c => Facility.With ops c fields)) ∧
    (multiFacility.withRun ops mf fields).clone =
      (multiFacility.withLoop ops mf fields).map some ∧
    (multiFacility.withRun ops mf fields).mf = mf := by
  have hrun := multiFacility.withIter_eq ops fields mf mf.length (Nat.le_refl _)
  refine ⟨?_, ?_, ?_, ?_, ?_, ?_⟩
  · simp [multiFacility.With, multiFacility.withLoop_eq_map]
  · simp [multiFacility.With, Facility.With]
  · simp [multiFacility.withLoop_eq_map]
  · intro i
    simp [multiFacility.withLoop_eq_map]
  · simp only [multiFacility.withRun]
    rw [hrun]
    simp [multiFacility.withLoop_eq_map]
  · simp only [multiFacility.withRun]
    rw [hrun]

/-- C15: `multiFacility.Check` is the left fold of the children's `Check` over the
checked entry it is given, nil or not: every child is consulted once, in order, on
what the child before it returned, whatever that is, and the result is that of the
last child; on the sinks under the composite it is the fold of their `Check`. -/
theorem multiFacility_Check_is_left_fold {F Entry Field CheckedEntry σ : Type}
    (ops : FacilityOps F Entry Field CheckedEntry σ) (mf : multiFacility F) (ent : Entry)
    (ce : Option CheckedEntry) :
    multiFacility.Check ops mf ent ce =
      mf.foldl (fun acc c => Facility.Check ops c ent acc) ce ∧
    Facility.Check ops (Facility.multi mf) ent ce = multiFacility.Check ops mf ent ce ∧
    (∀ (init : multiFacility F) (last : Facility F),
      multiFacility.Check ops (init ++ [last]) ent ce =
        Facility.Check ops last ent (multiFacility.Check ops init ent ce)) ∧
    multiFacility.Check ops mf ent ce =
      (multiFacility.sinks mf).foldl (fun acc f => ops.Check f ent acc) ce := by
  refine ⟨?_, ?_, ?_, ?_⟩
  · simp [multiFacility.Check, multiFacility.checkLoop_eq_foldl]
  · simp [multiFacility.Check, Facility.Check]
  · intro init last
    simp [multiFacility.Check, multiFacility.checkLoop_eq_foldl, List.foldl_append]
  · simp only [multiFacility.Check]
    exact checkLoop_eq_foldl_sinks ops ent mf ce

end zapcore

/-! ## `testingWriter.Write` -/

namespace zaptest

/-- C16: `testingWriter.Write` fails at run time on the empty slice: the index
`len(s) - 1` is `-1`, out of range.  On every slice with a last byte it completes,
hands the test logger the text without that byte when it is a newline and the whole
text otherwise, and returns the length of the slice and no error. -/
theorem testingWriter_Write_fails_on_empty :
    (∀ t : List Bytes,
      testingWriter.Write [] t = Except.error (RuntimeError.indexOutOfRange (-1) 0)) ∧
    (∀ (p : Bytes) (c : Nat) (t : List Bytes),
      testingWriter.Write (p ++ [c]) t =
        Except.ok ((p.length + 1, none), t ++ [if c = 10 then p else p ++ [c]])) := by
  refine ⟨fun t => rfl, fun p c t => ?_⟩
  have hidx : index (p ++ [c]) (((p ++ [c]).length : Int) - 1) = Except.ok c := by
    have h1 : (((p ++ [c]).length : Int) - 1) = (p.length : Int) := by
      simp
    rw [h1]
    simp [index, List.getD_eq_getElem?_getD]
  have hsl : sliceTo (p ++ [c]) (((p ++ [c]).length : Int) - 1) = Except.ok p := by
    have h1 : (((p ++ [c]).length : Int) - 1) = (p.length : Int) := by
      simp
    rw [h1]
    simp [sliceTo]
  simp only [testingWriter.Write, hidx]
  by_cases hc : c = 10
  · simp [hc, hsl, sliceTo]
  · simp [hc]

end zaptest
